import Mathlib

/-!
# aws-account-operator core: shallow embedding and verification

This file embeds the account-validation controller, the federated-account-access
controller and the federated-role controller of the aws-account-operator
repository in Lean, and proves (or refutes) the specification claims about them.

Conventions of the embedding:
* AWS/Go errors are values of `GoAwsError`: either an `awserr.Error` with a code
  (the Go code branches on `err.(awserr.Error)` type assertions and `aerr.Code()`),
  or a plain Go error carrying a message.
* The AWS SDK client is an oracle: a record of stateful functions over an abstract
  state type.  Each embedded controller function also returns the list of calls it
  issued, so that frame conditions ("no provider call is made") are statable.
* Recursion that is unbounded in Go (the OU parent walk, pagination loops) takes a
  fuel argument; `none` marks fuel exhaustion, which the theorems exclude by
  hypothesis.  All other behaviour is translated line by line from the source.
-/

/-- A Go error as the operator observes it: either an AWS SDK `awserr.Error`
exposing an error code, or any other (plain) Go error.  The source branches on
the `err.(awserr.Error)` type assertion and on `aerr.Code()`. -/
inductive GoAwsError where
  | aws (code msg : String)
  | plain (msg : String)
deriving DecidableEq

/-- `Account.Spec` of the Account custom resource, restricted to the field the
account-validation OU check reads (`account.Spec.AwsAccountID`). -/
structure AccountSpec where
  awsAccountID : String
deriving DecidableEq

/-- The Account custom resource as seen by `IsAccountInPoolOU`. -/
structure Account where
  spec : AccountSpec
deriving DecidableEq

/-- `ParentsTillPredicate` from controllers/validation/account_validation_controller.go:
retrieve all parents of `awsId` until the predicate returns true, accumulating the
visited parents.  `listParents` is the `client.ListParents` call (returning the
list of parent ids).  The Go function recurses without a bound; `fuel` bounds the
recursion and `none` signals exhaustion.  On success the accumulated parent list
is returned (the Go code appends to `*parents`). -/
def ParentsTillPredicate (fuel : Nat) (awsId : String)
    (listParents : String → Except GoAwsError (List String))
    (p : String → Bool) (parents : List String) :
    Option (Except GoAwsError (List String)) :=
  match fuel with
  | 0 => none
  | fuel + 1 =>
    match listParents awsId with
    | .error e => some (.error e)
    | .ok [] => some (.ok parents)
    | .ok [id] =>
        let parents := parents ++ [id]
        if p id then some (.ok parents)
        else ParentsTillPredicate fuel id listParents p parents
    | .ok _ => some (.error (.plain ("More than 1 parents found for Id " ++ awsId)))

/-- `IsAccountInPoolOU` from controllers/validation/account_validation_controller.go:
false when the account has no AWS account id; otherwise walk the parents with
`ParentsTillPredicate` starting from an empty accumulator; false on walk error;
otherwise report membership exactly when the accumulated parent list has length 1. -/
def IsAccountInPoolOU (fuel : Nat) (account : Account)
    (listParents : String → Except GoAwsError (List String))
    (isPoolOU : String → Bool) : Option Bool :=
  if account.spec.awsAccountID = "" then some false
  else
    match ParentsTillPredicate fuel account.spec.awsAccountID listParents isPoolOU [] with
    | none => none
    | some (.error _) => some false
    | some (.ok parentList) => some (parentList.length == 1)

/-- The scenario of the OU-walk claims: starting from `s`, every level returns
exactly one parent, the predicate rejects every parent except the last one of the
chain, which it accepts. -/
inductive OUChain (listParents : String → Except GoAwsError (List String))
    (p : String → Bool) : String → List String → Prop where
  | last {s x : String} :
      listParents s = .ok [x] → p x = true → OUChain listParents p s [x]
  | step {s x : String} {rest : List String} :
      listParents s = .ok [x] → p x = false → OUChain listParents p x rest →
      OUChain listParents p s (x :: rest)

/-- On a one-parent-per-level chain whose last element first satisfies the
predicate, the walk succeeds and returns the accumulator extended by the chain. -/
theorem parentsTillPredicate_of_isChain
    {listParents : String → Except GoAwsError (List String)} {p : String → Bool}
    {s : String} {ch : List String} (h : OUChain listParents p s ch) :
    ∀ fuel parents, ch.length ≤ fuel →
      ParentsTillPredicate fuel s listParents p parents = some (.ok (parents ++ ch)) := by
  induction h with
  | last hlp hp =>
      intro fuel parents hle
      match fuel, hle with
      | fuel + 1, _ => simp [ParentsTillPredicate, hlp, hp]
  | @step s x rest hlp hp _ ih =>
      intro fuel parents hle
      match fuel, hle with
      | fuel + 1, hle =>
        have hrest : rest.length ≤ fuel := Nat.le_of_succ_le_succ (by simpa using hle)
        simp only [ParentsTillPredicate, hlp]
        rw [if_neg (by simp [hp]), ih fuel (parents ++ [x]) hrest]
        simp

/-- Concrete two-hop client: the account "A" has single parent "P1", which has
single parent "P2"; only "P2" is the pool OU. -/
def cexListParentsTwoHop : String → Except GoAwsError (List String) := fun s =>
  if s = "A" then .ok ["P1"]
  else if s = "P1" then .ok ["P2"]
  else .ok []

/-- Predicate of the two-hop scenario: the pool OU is "P2". -/
def cexIsPoolTwoHop : String → Bool := fun s => s == "P2"

/-- C1 counterexample: with a two-hop chain ("A" → "P1" → "P2", one parent at each
level, first parent rejected, second accepted — the claim's scenario at N = 2),
`IsAccountInPoolOU` returns false, not true: it accepts only a length-1 parent
list. -/
theorem isAccountInPoolOU_two_hop_counterexample :
    OUChain cexListParentsTwoHop cexIsPoolTwoHop "A" ["P1", "P2"] ∧
    IsAccountInPoolOU 10 ⟨⟨"A"⟩⟩ cexListParentsTwoHop cexIsPoolTwoHop = some false :=
  ⟨.step rfl rfl (.last rfl rfl), rfl⟩

/-- C1 (amended): for an account with a nonempty AWS account id and a
one-parent-per-level chain on which the predicate first holds at the N-th parent,
`IsAccountInPoolOU` reports membership exactly when N = 1 (the immediate parent is
the pool OU); for N ≥ 2 it reports non-membership. -/
theorem isAccountInPoolOU_chain (fuel : Nat) (account : Account)
    (listParents : String → Except GoAwsError (List String)) (p : String → Bool)
    (ch : List String) (hid : account.spec.awsAccountID ≠ "")
    (hch : OUChain listParents p account.spec.awsAccountID ch)
    (hfuel : ch.length ≤ fuel) :
    IsAccountInPoolOU fuel account listParents p = some (ch.length == 1) := by
  unfold IsAccountInPoolOU
  rw [if_neg hid, parentsTillPredicate_of_isChain hch fuel [] hfuel]
  simp

/-- Client for the witness: the single parent of "A" is "Root", the pool OU. -/
def witListParentsOneHop : String → Except GoAwsError (List String) := fun s =>
  if s = "A" then .ok ["Root"] else .ok []

/-- Witness for the amended C1 theorem at N = 1: membership is reported. -/
theorem isAccountInPoolOU_chain_witness :
    IsAccountInPoolOU 5 ⟨⟨"A"⟩⟩ witListParentsOneHop (fun s => s == "Root") = some true :=
  isAccountInPoolOU_chain 5 ⟨⟨"A"⟩⟩ witListParentsOneHop (fun s => s == "Root") ["Root"]
    (by decide) (.last rfl rfl) (by decide)

/-- C2 (amended): behaviour of the parent walk at the provider-independent
boundary cases.  (1) A level with zero parents ends the walk with success,
returning the parents accumulated so far.  (2) Zero parents at the very first
level makes `IsAccountInPoolOU` report non-membership.  (3) Zero parents right
after a single rejected parent makes `IsAccountInPoolOU` report membership (the
accumulated list has length 1) although the predicate never held.  (4) A level
with more than one parent ends the walk with the hard tree-invariant error.
(5) Whenever the walk returns an error, either the provider itself returned that
error for some id, or some id has more than one parent: these are the only error
sources. -/
theorem parentsTillPredicate_error_classification
    (listParents : String → Except GoAwsError (List String)) (p : String → Bool) :
    (∀ fuel s parents, listParents s = .ok [] →
        ParentsTillPredicate (fuel + 1) s listParents p parents = some (.ok parents))
    ∧ (∀ fuel (account : Account), account.spec.awsAccountID ≠ "" →
        listParents account.spec.awsAccountID = .ok [] →
        IsAccountInPoolOU (fuel + 1) account listParents p = some false)
    ∧ (∀ fuel (account : Account) x, account.spec.awsAccountID ≠ "" →
        listParents account.spec.awsAccountID = .ok [x] → p x = false →
        listParents x = .ok [] →
        IsAccountInPoolOU (fuel + 2) account listParents p = some true)
    ∧ (∀ fuel s parents ps, listParents s = .ok ps → 1 < ps.length →
        ParentsTillPredicate (fuel + 1) s listParents p parents =
          some (.error (.plain ("More than 1 parents found for Id " ++ s))))
    ∧ (∀ fuel s parents e,
        ParentsTillPredicate fuel s listParents p parents = some (.error e) →
        (∃ id, listParents id = .error e) ∨
          (∃ id ps, listParents id = .ok ps ∧ 1 < ps.length)) := by
  have hzero : ∀ fuel s parents, listParents s = .ok [] →
      ParentsTillPredicate (fuel + 1) s listParents p parents = some (.ok parents) := by
    intro fuel s parents h
    simp [ParentsTillPredicate, h]
  refine ⟨hzero, ?_, ?_, ?_, ?_⟩
  · intro fuel account hid h
    unfold IsAccountInPoolOU
    rw [if_neg hid, hzero fuel _ [] h]
    simp
  · intro fuel account x hid h1 hp h2
    unfold IsAccountInPoolOU
    rw [if_neg hid]
    have : ParentsTillPredicate (fuel + 2) account.spec.awsAccountID listParents p [] =
        some (.ok [x]) := by
      simp only [ParentsTillPredicate, h1, hp]
      simpa using hzero fuel x [x] h2
    rw [this]; rfl
  · intro fuel s parents ps h hlen
    match ps, hlen with
    | a :: b :: t, _ => simp [ParentsTillPredicate, h]
  · intro fuel
    induction fuel with
    | zero => intro s parents e h; simp [ParentsTillPredicate] at h
    | succ fuel ih =>
        intro s parents e h
        unfold ParentsTillPredicate at h
        cases hlp : listParents s with
        | error e' =>
            rw [hlp] at h
            simp at h
            exact Or.inl ⟨s, by rw [hlp, h]⟩
        | ok ps =>
            rw [hlp] at h
            match ps with
            | [] => simp at h
            | [id] =>
                by_cases hp : p id
                · simp [hp] at h
                · simp [hp] at h
                  exact ih id (parents ++ [id]) e h
            | a :: b :: t =>
                exact Or.inr ⟨s, a :: b :: t, hlp, by simp⟩

/-- Client of the zero-parents-after-one-hop scenario: "A" has single parent
"P1"; "P1" has no parents; the predicate never holds. -/
def cexListParentsOrphan : String → Except GoAwsError (List String) := fun s =>
  if s = "A" then .ok ["P1"] else .ok []

/-- C2 counterexample: a level returning zero parents right after one rejected
parent ends the walk with success, but the account is reported a member (the
claim says it is reported not a member). -/
theorem zeroParents_reported_member_counterexample :
    cexListParentsOrphan "P1" = .ok [] ∧
    ParentsTillPredicate 10 "A" cexListParentsOrphan (fun _ => false) [] =
      some (.ok ["P1"]) ∧
    IsAccountInPoolOU 10 ⟨⟨"A"⟩⟩ cexListParentsOrphan (fun _ => false) = some true :=
  ⟨rfl, rfl, rfl⟩

/-- Witness for the amended C2 theorem: zero parents at the first level ends the
walk successfully with an empty parent list. -/
theorem parentsTillPredicate_error_classification_witness :
    ParentsTillPredicate 1 "X" (fun _ => .ok []) (fun _ => false) [] = some (.ok []) :=
  (parentsTillPredicate_error_classification (fun _ => .ok []) (fun _ => false)).1 0 "X" [] rfl

/-- Modelled from the spec: the classified outcomes of account creation (§4.2 of
the spec).  The named errors correspond to awsv1alpha1.ErrAwsAccountLimitExceeded,
ErrAwsInternalFailure, ErrAwsTooManyRequests and ErrAwsFailedCreateAccount; a
DescribeCreateAccountStatus call error is returned to the caller unchanged
(`describeFailed`), as the unit tests in the repository pin. -/
inductive OperatorError where
  | errAwsAccountLimitExceeded
  | errAwsInternalFailure
  | errAwsTooManyRequests
  | errAwsFailedCreateAccount
  | describeFailed (e : GoAwsError)
  | statusPending
deriving DecidableEq

/-- The DescribeCreateAccountStatus output as far as CreateAccount inspects it:
the creation state, the failure reason, and the created account id. -/
structure DescribeCreateAccountStatusOutput where
  state : String
  failureReason : Option String
  accountId : Option String
deriving DecidableEq

/-- Modelled from the spec: `CreateAccount` of the account package is not under
src (only its Ginkgo unit tests are).  Per §4.2 it issues one create request and
one follow-up status check and classifies: a create-call ConstraintViolationException
error is AccountLimitExceeded, ServiceException is InternalFailure,
TooManyRequestsException is TooManyRequests, any other create error is
FailedCreateAccount; a status check reporting FAILED with reason
ACCOUNT_LIMIT_EXCEEDED is AccountLimitExceeded, FAILED with another reason is
FailedCreateAccount, and SUCCEEDED returns the describe output unchanged.  A
describe-call error is propagated unchanged (pinned by the unit tests); a state
other than SUCCEEDED/FAILED is reported as still pending. -/
def CreateAccount (createResult : Except GoAwsError Unit)
    (describeResult : Except GoAwsError DescribeCreateAccountStatusOutput) :
    Except OperatorError DescribeCreateAccountStatusOutput :=
  match createResult with
  | .error (.aws code _) =>
      if code = "ConstraintViolationException" then .error .errAwsAccountLimitExceeded
      else if code = "ServiceException" then .error .errAwsInternalFailure
      else if code = "TooManyRequestsException" then .error .errAwsTooManyRequests
      else .error .errAwsFailedCreateAccount
  | .error (.plain _) => .error .errAwsFailedCreateAccount
  | .ok _ =>
      match describeResult with
      | .error e => .error (.describeFailed e)
      | .ok out =>
          if out.state = "SUCCEEDED" then .ok out
          else if out.state = "FAILED" then
            if out.failureReason = some "ACCOUNT_LIMIT_EXCEEDED" then
              .error .errAwsAccountLimitExceeded
            else .error .errAwsFailedCreateAccount
          else .error .statusPending

/-- C5: CreateAccount classifies every outcome as the claim's table states:
constraint violation to account-limit-exceeded, service exception to internal
failure, too-many-requests to too-many-requests, any other create-call error code
to the generic failure, a FAILED status with reason ACCOUNT_LIMIT_EXCEEDED to
account-limit-exceeded, and a SUCCEEDED status to the describe output unchanged
with no error. -/
theorem createAccount_classification :
    (∀ msg d, CreateAccount (.error (.aws "ConstraintViolationException" msg)) d =
        .error .errAwsAccountLimitExceeded)
    ∧ (∀ msg d, CreateAccount (.error (.aws "ServiceException" msg)) d =
        .error .errAwsInternalFailure)
    ∧ (∀ msg d, CreateAccount (.error (.aws "TooManyRequestsException" msg)) d =
        .error .errAwsTooManyRequests)
    ∧ (∀ code msg d, code ≠ "ConstraintViolationException" → code ≠ "ServiceException" →
        code ≠ "TooManyRequestsException" →
        CreateAccount (.error (.aws code msg)) d = .error .errAwsFailedCreateAccount)
    ∧ (∀ out, out.state = "FAILED" → out.failureReason = some "ACCOUNT_LIMIT_EXCEEDED" →
        CreateAccount (.ok ()) (.ok out) = .error .errAwsAccountLimitExceeded)
    ∧ (∀ out, out.state = "SUCCEEDED" → CreateAccount (.ok ()) (.ok out) = .ok out) := by
  refine ⟨fun msg d => rfl, fun msg d => rfl, fun msg d => rfl, ?_, ?_, ?_⟩
  · intro code msg d h1 h2 h3
    simp [CreateAccount, h1, h2, h3]
  · intro out h1 h2
    have hne : out.state ≠ "SUCCEEDED" := by rw [h1]; decide
    simp [CreateAccount, h1, h2, hne]
  · intro out h1
    simp [CreateAccount, h1]

/-- Witness for the C5 theorem: the DuplicateAccountException code used by the
unit tests lands in the generic failed-create-account class, and a SUCCEEDED
status check returns the describe output unchanged. -/
theorem createAccount_classification_witness :
    CreateAccount (.error (.aws "DuplicateAccountException" "Error String"))
      (.ok ⟨"SUCCEEDED", none, none⟩) = .error .errAwsFailedCreateAccount ∧
    CreateAccount (.ok ()) (.ok ⟨"SUCCEEDED", none, some "1234"⟩) =
      .ok ⟨"SUCCEEDED", none, some "1234"⟩ :=
  ⟨createAccount_classification.2.2.2.1 "DuplicateAccountException" "Error String"
      (.ok ⟨"SUCCEEDED", none, none⟩) (by decide) (by decide) (by decide),
    createAccount_classification.2.2.2.2.2 ⟨"SUCCEEDED", none, some "1234"⟩ rfl⟩

/-- The ValidationError enumeration from account_validation_controller.go. -/
inductive ValidationError where
  | InvalidAccount
  | AccountMoveFailed
  | MissingTag
  | IncorrectOwnerTag
  | AccountTagFailed
  | MissingAWSAccount
deriving DecidableEq

/-- The error returned by ValidateAccountTags: either an AccountValidationError
with a type and a wrapped error, or the raw error of the ListTagsForResource
call, which is returned unwrapped. -/
inductive ValidationResultError where
  | accountValidationError (t : ValidationError) (err : GoAwsError)
  | rawError (e : GoAwsError)
deriving DecidableEq

/-- A tag of the Organizations API: key and value. -/
structure OrgTag where
  key : String
  value : String
deriving DecidableEq

/-- A mutating Organizations call issued during tag validation. -/
inductive OrgCall where
  | untagResource (accountId : String) (tagKeys : List String)
  | tagResource (accountId : String) (tags : List OrgTag)
deriving DecidableEq

/-- The Organizations client operations tag validation uses, as an oracle of
outcomes (each operation is invoked at most once per pass). -/
structure OrgTagClient where
  listTagsForResource : Except GoAwsError (List OrgTag)
  untagResource : Except GoAwsError Unit
  tagResource : Except GoAwsError Unit

/-- The owner tag key constant of the validation controller. -/
def ownerKey : String := "owner"

/-- Modelled from the spec: `account.TagAccount` is not under src (only its unit
test and callers are).  Per §4.2 it upserts the single owner tag; the unit test
TestTagAccount pins the exact call: TagResource with the account id and the one
tag owner=shardName. -/
def TagAccount (client : OrgTagClient) (accountId : String) (shardName : String) :
    List OrgCall × Except GoAwsError Unit :=
  ([.tagResource accountId [⟨ownerKey, shardName⟩]], client.tagResource)

/-- `untagAccountOwner` from account_validation_controller.go: remove the owner
tag from the account. -/
def untagAccountOwner (client : OrgTagClient) (accountId : String) :
    List OrgCall × Except GoAwsError Unit :=
  ([.untagResource accountId ["owner"]], client.untagResource)

/-- The for-loop body of `ValidateAccountTags` over the listed tags, with the
post-loop fallback (tag absent) as the nil case: the first tag whose key is
"owner" decides the outcome; on a mismatched value either untag-then-retag
(tagging enabled, failures become AccountTagFailed) or report IncorrectOwnerTag;
on a matching value succeed with no mutation; if no owner tag is found, either
apply the tag (enabled, failure becomes AccountTagFailed) or report MissingTag. -/
def validateOwnerTagLoop (client : OrgTagClient) (accountId : String)
    (shardName : String) (accountTagEnabled : Bool) :
    List OrgTag → List OrgCall × Except ValidationResultError Unit
  | tag :: rest =>
    if ownerKey = tag.key then
      if shardName ≠ tag.value then
        if accountTagEnabled then
          match untagAccountOwner client accountId with
          | (calls1, .error e) =>
              (calls1, .error (.accountValidationError .AccountTagFailed e))
          | (calls1, .ok _) =>
            match TagAccount client accountId shardName with
            | (calls2, .error e) =>
                (calls1 ++ calls2, .error (.accountValidationError .AccountTagFailed e))
            | (calls2, .ok _) => (calls1 ++ calls2, .ok ())
        else
          ([], .error (.accountValidationError .IncorrectOwnerTag
            (.plain ("Account is not tagged with the correct owner, has " ++ tag.value ++
              "; want " ++ shardName))))
      else ([], .ok ())
    else validateOwnerTagLoop client accountId shardName accountTagEnabled rest
  | [] =>
    if accountTagEnabled then
      match TagAccount client accountId shardName with
      | (calls, .error e) =>
          (calls, .error (.accountValidationError .AccountTagFailed e))
      | (calls, .ok _) => (calls, .ok ())
    else
      ([], .error (.accountValidationError .MissingTag
        (.plain "Account is not tagged with an owner")))

/-- `ValidateAccountTags` from account_validation_controller.go: list the
account's tags (propagating a listing error unwrapped) and run the owner-tag
check over them. -/
def ValidateAccountTags (client : OrgTagClient) (accountId : String)
    (shardName : String) (accountTagEnabled : Bool) :
    List OrgCall × Except ValidationResultError Unit :=
  match client.listTagsForResource with
  | .error e => ([], .error (.rawError e))
  | .ok tags => validateOwnerTagLoop client accountId shardName accountTagEnabled tags

/-- The loop only looks at the first owner-keyed tag: tags before it are skipped. -/
theorem validateOwnerTagLoop_eq_of_find {client : OrgTagClient} {accountId : String}
    {shardName : String} {enabled : Bool} {tags : List OrgTag} :
    (tags.find? (fun t => ownerKey == t.key) = none →
      validateOwnerTagLoop client accountId shardName enabled tags =
        validateOwnerTagLoop client accountId shardName enabled []) ∧
    (∀ t, tags.find? (fun t => ownerKey == t.key) = some t →
      validateOwnerTagLoop client accountId shardName enabled tags =
        validateOwnerTagLoop client accountId shardName enabled [t]) := by
  induction tags with
  | nil => exact ⟨fun _ => rfl, fun t h => by simp [List.find?] at h⟩
  | cons hd tl ih =>
      by_cases hk : ownerKey = hd.key
      · refine ⟨fun h => ?_, fun t h => ?_⟩
        · rw [List.find?_cons_of_pos _ (by simp [hk])] at h
          exact absurd h (by simp)
        · rw [List.find?_cons_of_pos _ (by simp [hk])] at h
          cases h
          simp [validateOwnerTagLoop, hk]
      · constructor
        · intro h
          rw [List.find?_cons_of_neg _ (by simp [hk])] at h
          rw [show validateOwnerTagLoop client accountId shardName enabled (hd :: tl) =
              validateOwnerTagLoop client accountId shardName enabled tl by
            simp [validateOwnerTagLoop, hk]]
          exact ih.1 h
        · intro t h
          rw [List.find?_cons_of_neg _ (by simp [hk])] at h
          rw [show validateOwnerTagLoop client accountId shardName enabled (hd :: tl) =
              validateOwnerTagLoop client accountId shardName enabled tl by
            simp [validateOwnerTagLoop, hk]]
          exact ih.2 t h

/-- Reducing ValidateAccountTags to the owner-tag loop once the listing is known. -/
theorem validateAccountTags_eq_loop {client : OrgTagClient} {tags : List OrgTag}
    (hlist : client.listTagsForResource = .ok tags) (accountId shardName : String)
    (enabled : Bool) :
    ValidateAccountTags client accountId shardName enabled =
      validateOwnerTagLoop client accountId shardName enabled tags := by
  unfold ValidateAccountTags
  rw [hlist]

/-- C6: ValidateAccountTags satisfies the five-case truth table.  With the listed
tags known: (1) owner tag absent and tagging enabled (and the tag call succeeds):
the owner tag is applied and no error is returned; (2) absent and tagging
disabled: a MissingTag error and no mutation; (3) owner tag present but
mismatched and tagging enabled (both calls succeeding): the tag is removed and
re-applied with no error; (4) mismatched and disabled: an IncorrectOwnerTag
error and no mutation; (5) present and matching: no mutation and no error. -/
theorem validateAccountTags_truth_table (client : OrgTagClient) (accountId : String)
    (shardName : String) (tags : List OrgTag)
    (hlist : client.listTagsForResource = .ok tags) :
    (tags.find? (fun t => ownerKey == t.key) = none → client.tagResource = .ok () →
      ValidateAccountTags client accountId shardName true =
        ([.tagResource accountId [⟨ownerKey, shardName⟩]], .ok ()))
    ∧ (tags.find? (fun t => ownerKey == t.key) = none →
      ValidateAccountTags client accountId shardName false =
        ([], .error (.accountValidationError .MissingTag
            (.plain "Account is not tagged with an owner"))))
    ∧ (∀ t, tags.find? (fun t => ownerKey == t.key) = some t → shardName ≠ t.value →
      client.untagResource = .ok () → client.tagResource = .ok () →
      ValidateAccountTags client accountId shardName true =
        ([.untagResource accountId ["owner"],
          .tagResource accountId [⟨ownerKey, shardName⟩]], .ok ()))
    ∧ (∀ t, tags.find? (fun t => ownerKey == t.key) = some t → shardName ≠ t.value →
      ValidateAccountTags client accountId shardName false =
        ([], .error (.accountValidationError .IncorrectOwnerTag
            (.plain ("Account is not tagged with the correct owner, has " ++ t.value ++
              "; want " ++ shardName)))))
    ∧ (∀ t, tags.find? (fun t => ownerKey == t.key) = some t → shardName = t.value →
      ∀ enabled, ValidateAccountTags client accountId shardName enabled = ([], .ok ())) := by
  refine ⟨?_, ?_, ?_, ?_, ?_⟩
  · intro hfind htag
    rw [validateAccountTags_eq_loop hlist, validateOwnerTagLoop_eq_of_find.1 hfind]
    simp [validateOwnerTagLoop, TagAccount, htag]
  · intro hfind
    rw [validateAccountTags_eq_loop hlist, validateOwnerTagLoop_eq_of_find.1 hfind]
    simp [validateOwnerTagLoop]
  · intro t hfind hne huntag htag
    have hkey : ownerKey = t.key := by
      have := List.find?_some hfind
      simpa using this
    rw [validateAccountTags_eq_loop hlist, validateOwnerTagLoop_eq_of_find.2 t hfind]
    simp [validateOwnerTagLoop, hkey, hne, TagAccount, untagAccountOwner, huntag, htag]
  · intro t hfind hne
    have hkey : ownerKey = t.key := by
      have := List.find?_some hfind
      simpa using this
    rw [validateAccountTags_eq_loop hlist, validateOwnerTagLoop_eq_of_find.2 t hfind]
    simp [validateOwnerTagLoop, hkey, hne]
  · intro t hfind heq enabled
    have hkey : ownerKey = t.key := by
      have := List.find?_some hfind
      simpa using this
    rw [validateAccountTags_eq_loop hlist, validateOwnerTagLoop_eq_of_find.2 t hfind]
    simp [validateOwnerTagLoop, hkey, heq]

/-- Concrete client for the C6 witness: no tags on the account, mutations succeed. -/
def witOrgTagClient : OrgTagClient := ⟨.ok [], .ok (), .ok ()⟩

/-- Witness for the C6 theorem: with no tags and tagging enabled, the owner tag
is applied and no error is returned. -/
theorem validateAccountTags_truth_table_witness :
    ValidateAccountTags witOrgTagClient "111111111111" "hivename" true =
      ([.tagResource "111111111111" [⟨ownerKey, "hivename"⟩]], .ok ()) :=
  (validateAccountTags_truth_table witOrgTagClient "111111111111" "hivename" [] rfl).1 rfl rfl

/-- A statement of a custom policy document, as carried from the
AWSFederatedRole spec into the CreatePolicy call (Condition and Principal of the
api type are carried through opaquely). -/
structure AwsStatement where
  effect : String
  action : List String
  resource : List String
  condition : Option String
  principal : Option (List String)
deriving DecidableEq

/-- The custom policy of an AWSFederatedRole spec. -/
structure AWSCustomPolicy where
  name : String
  description : String
  statements : List AwsStatement
deriving DecidableEq

/-- A condition entry of a custom resource status (probe/transition timestamps
are omitted: no claim inspects them). -/
structure CrCondition where
  ctype : String
  status : String
  reason : String
  message : String
deriving DecidableEq

/-- The spec of an AWSFederatedRole template. -/
structure AWSFederatedRoleSpec where
  roleDisplayName : String
  roleDescription : String
  awsCustomPolicy : AWSCustomPolicy
  awsManagedPolicies : List String
deriving DecidableEq

/-- The status of an AWSFederatedRole template: terminal validation state and
conditions. -/
structure AWSFederatedRoleStatus where
  state : String
  conditions : List CrCondition
deriving DecidableEq

/-- The AWSFederatedRole custom resource (metadata restricted to what the
controllers read: name, finalizers, deletion marker). -/
structure AWSFederatedRole where
  name : String
  finalizers : List String
  deletionTimestamp : Bool
  spec : AWSFederatedRoleSpec
  status : AWSFederatedRoleStatus
deriving DecidableEq

/-- The labels of an AWSFederatedAccountAccess resource, restricted to the two
keys the controller reads and writes (awsv1alpha1.UIDLabel = "uid" and
awsv1alpha1.AccountIDLabel = "awsAccountID"). -/
structure FAALabels where
  uid : Option String
  awsAccountID : Option String
deriving DecidableEq

/-- A reference to another custom resource by name (the namespace is never
compared by the embedded logic). -/
structure NamespacedRef where
  name : String
deriving DecidableEq

/-- The spec of an AWSFederatedAccountAccess request. -/
structure AWSFederatedAccountAccessSpec where
  awsFederatedRole : NamespacedRef
  externalCustomerAWSIAMARN : String
deriving DecidableEq

/-- The status of an AWSFederatedAccountAccess request. -/
structure AWSFederatedAccountAccessStatus where
  state : String
  conditions : List CrCondition
  consoleURL : String
deriving DecidableEq

/-- The AWSFederatedAccountAccess custom resource. -/
structure AWSFederatedAccountAccess where
  labels : FAALabels
  finalizers : List String
  deletionTimestamp : Bool
  spec : AWSFederatedAccountAccessSpec
  status : AWSFederatedAccountAccessStatus
deriving DecidableEq

/-- The input of an iam.CreatePolicy call (the policy document is represented by
the statement list it is marshalled from; the JSON bytes themselves are never
branched on). -/
structure CreatePolicyInput where
  policyName : String
  description : String
  statements : List AwsStatement
deriving DecidableEq

/-- The input of an iam.CreateRole call: name, description, and the AWS
principal list of the sts:AssumeRole trust-policy document built around it. -/
structure CreateRoleInput where
  roleName : String
  description : String
  trustPrincipal : List String
deriving DecidableEq

/-- One page of a ListPolicies / ListAttachedRolePolicies result:
(PolicyName, PolicyArn) pairs plus the truncation marker. -/
structure PolicyListOutput where
  policies : List (String × String)
  isTruncated : Bool
  marker : Option String
deriving DecidableEq

/-- An AWS API call issued by the federated-access controllers, as recorded in
the call trace of the embedding. -/
inductive AwsCall where
  | getCallerIdentity
  | createPolicy (input : CreatePolicyInput)
  | deletePolicy (policyArn : String)
  | createRole (input : CreateRoleInput)
  | deleteRole (roleName : String)
  | attachRolePolicy (roleName policyArn : String)
  | detachRolePolicy (roleName policyArn : String)
  | listAttachedRolePolicies (roleName : String) (marker : Option String)
  | listPolicies (marker : Option String)
  | assumeRole (roleArn : String)
deriving DecidableEq

/-- The AWS client as an oracle: stateful outcome functions over an abstract
state `σ`.  `getClient` stands for awsClientBuilder.GetClient (a credential
lookup, not itself a provider API call). -/
structure AwsClient (σ : Type) where
  getClient : σ → σ × Except GoAwsError Unit
  getCallerIdentity : σ → σ × Except GoAwsError String
  createPolicy : σ → CreatePolicyInput → σ × Except GoAwsError String
  deletePolicy : σ → String → σ × Except GoAwsError Unit
  createRole : σ → CreateRoleInput → σ × Except GoAwsError String
  deleteRole : σ → String → σ × Except GoAwsError Unit
  attachRolePolicy : σ → String → String → σ × Except GoAwsError Unit
  detachRolePolicy : σ → String → String → σ × Except GoAwsError Unit
  listAttachedRolePolicies : σ → String → Option String → σ × Except GoAwsError PolicyListOutput
  listPolicies : σ → Option String → σ × Except GoAwsError PolicyListOutput
  assumeRole : σ → String → σ × Except GoAwsError Unit

/-- `hasLabel` from the awsfederatedaccountaccess controller, restricted to the
two label keys the controller ever passes ("uid" and "awsAccountID"). -/
def hasLabel (afaa : AWSFederatedAccountAccess) (labelKey : String) : Bool :=
  if labelKey = "uid" then afaa.labels.uid.isSome
  else if labelKey = "awsAccountID" then afaa.labels.awsAccountID.isSome
  else false

/-- `createPolicyArns` from the awsfederatedaccountaccess controller: prefix
every policy name with the AWS-managed or the account-local policy ARN prefix. -/
def createPolicyArns (accountID : String) (policyNames : List String)
    (awsManaged : Bool) : List String :=
  let arnPref :=
    if awsManaged then "arn:aws:iam::aws:policy/"
    else "arn:aws:iam::" ++ accountID ++ ":policy/"
  policyNames.map (fun policy => arnPref ++ policy)

/-- strings.HasSuffix as a suffix test on the underlying character lists
(String.endsWith is byte-position based and does not reduce in the kernel). -/
def goHasSuffix (s suffix : String) : Bool :=
  List.isSuffixOf suffix.data s.data

/-- `getPolicyNameWithUID` from the awsfederatedaccountaccess controller: append
"-uid" to the CR policy name unless it is already a suffix of it. -/
def getPolicyNameWithUID (awsCustomPolicyname : String) (crPolicyName : String)
    (uidLabel : String) : String :=
  let _ := awsCustomPolicyname
  if ¬ goHasSuffix crPolicyName ("-" ++ uidLabel) then crPolicyName ++ "-" ++ uidLabel
  else crPolicyName

/-- Modelled from the spec: utils.SetAWSFederatedAccountAccessCondition and
utils.SetAWSFederatedRoleCondition live in pkg/utils, which is not under src.
Per the data-model section of the spec: at most one live entry per type; a
repeat observation of the same type and status leaves the entry in place (it
only refreshes lastProbeTime, which this model omits); a changed status rewrites
the entry; a missing type appends a new entry (updateConditionNever keeps the
old text of a same-status entry). -/
def setCrCondition (conds : List CrCondition) (ctype status reason message : String) :
    List CrCondition :=
  match conds.find? (fun c => c.ctype == ctype) with
  | none => conds ++ [⟨ctype, status, reason, message⟩]
  | some c =>
      if c.status == status then conds
      else conds.map (fun c0 =>
        if c0.ctype == ctype then ⟨ctype, status, reason, message⟩ else c0)

/-- `SetStatuswithCondition` from the awsfederatedaccountaccess controller: set
the condition of the given type (status True, reason = state) and set the state. -/
def SetStatuswithCondition (afaa : AWSFederatedAccountAccess)
    (message ctype state : String) : AWSFederatedAccountAccess :=
  { afaa with status :=
      { afaa.status with
        conditions := setCrCondition afaa.status.conditions ctype "True" state message
        state := state } }

/-- `createIAMPolicy` from the awsfederatedaccountaccess controller: build the
policy document from the template's custom statements and issue CreatePolicy for
the name customPolicyName-uid; without a uid label fail before calling AWS. -/
def createIAMPolicy {σ : Type} (client : AwsClient σ) (s : σ)
    (afr : AWSFederatedRole) (afaa : AWSFederatedAccountAccess) :
    σ × List AwsCall × Except GoAwsError String :=
  match afaa.labels.uid with
  | some uidLabel =>
      let policyName := afr.spec.awsCustomPolicy.name ++ "-" ++ uidLabel
      let input : CreatePolicyInput :=
        ⟨policyName, afr.spec.awsCustomPolicy.description, afr.spec.awsCustomPolicy.statements⟩
      match client.createPolicy s input with
      | (s, .error e) => (s, [.createPolicy input], .error e)
      | (s, .ok policy) => (s, [.createPolicy input], .ok policy)
  | none => (s, [], .error (.plain "Failed to get UID label"))

/-- `createIAMRole` from the awsfederatedaccountaccess controller: build the
trust policy around the external customer ARN and issue CreateRole for the name
federatedRoleName-uid; without a uid label fail before calling AWS. -/
def createIAMRole {σ : Type} (client : AwsClient σ) (s : σ)
    (afr : AWSFederatedRole) (afaa : AWSFederatedAccountAccess) :
    σ × List AwsCall × Except GoAwsError String :=
  match afaa.labels.uid with
  | some uidLabel =>
      let roleName := afr.name ++ "-" ++ uidLabel
      let input : CreateRoleInput :=
        ⟨roleName, afr.spec.roleDescription, [afaa.spec.externalCustomerAWSIAMARN]⟩
      match client.createRole s input with
      | (s, .error e) => (s, [.createRole input], .error e)
      | (s, .ok role) => (s, [.createRole input], .ok role)
  | none => (s, [], .error (.plain "Failed to get UID label"))

/-- `createOrUpdateIAMPolicy` from the awsfederatedaccountaccess controller:
create the custom policy; on an EntityAlreadyExists AWS error, delete the
existing policy by ARN and create once more.  Note the Go control flow: a create
error that is not an EntityAlreadyExists AWS error falls through to `return nil`
— the error is swallowed and the function reports success. -/
def createOrUpdateIAMPolicy {σ : Type} (client : AwsClient σ) (s : σ)
    (afr : AWSFederatedRole) (afaa : AWSFederatedAccountAccess) :
    σ × List AwsCall × Except GoAwsError Unit :=
  match afaa.labels.uid with
  | none => (s, [], .error (.plain "Unable to get UID label"))
  | some uidLabel =>
    match client.getCallerIdentity s with
    | (s, .error e) => (s, [.getCallerIdentity], .error e)
    | (s, .ok acct) =>
      let customPolArns :=
        createPolicyArns acct [afr.spec.awsCustomPolicy.name ++ "-" ++ uidLabel] false
      let customPolArn := customPolArns.headD ""
      match createIAMPolicy client s afr afaa with
      | (s, calls, .ok _) => (s, .getCallerIdentity :: calls, .ok ())
      | (s, calls, .error e) =>
        match e with
        | .aws code _ =>
          if code = "EntityAlreadyExists" then
            match client.deletePolicy s customPolArn with
            | (s, .error e2) =>
                (s, .getCallerIdentity :: calls ++ [.deletePolicy customPolArn], .error e2)
            | (s, .ok _) =>
              match createIAMPolicy client s afr afaa with
              | (s, calls2, .error e3) =>
                  (s, .getCallerIdentity :: calls ++ .deletePolicy customPolArn :: calls2,
                    .error e3)
              | (s, calls2, .ok _) =>
                  (s, .getCallerIdentity :: calls ++ .deletePolicy customPolArn :: calls2,
                    .ok ())
          else (s, .getCallerIdentity :: calls, .ok ())
        | .plain _ => (s, .getCallerIdentity :: calls, .ok ())

/-- `createOrUpdateIAMRole` from the awsfederatedaccountaccess controller:
create the role; on an EntityAlreadyExists AWS error, delete the role named
federatedRoleRefName-uid and create once more; unlike the policy variant, every
other error is propagated. -/
def createOrUpdateIAMRole {σ : Type} (client : AwsClient σ) (s : σ)
    (afr : AWSFederatedRole) (afaa : AWSFederatedAccountAccess) :
    σ × List AwsCall × Except GoAwsError String :=
  match afaa.labels.uid with
  | none => (s, [], .error (.plain "Unable to get UID label"))
  | some uidLabel =>
    let roleName := afaa.spec.awsFederatedRole.name ++ "-" ++ uidLabel
    match createIAMRole client s afr afaa with
    | (s, calls, .ok role) => (s, calls, .ok role)
    | (s, calls, .error e) =>
      match e with
      | .aws code msg =>
        if code = "EntityAlreadyExists" then
          match client.deleteRole s roleName with
          | (s, .error e2) => (s, calls ++ [.deleteRole roleName], .error e2)
          | (s, .ok _) =>
            match createIAMRole client s afr afaa with
            | (s, calls2, .error e3) =>
                (s, calls ++ .deleteRole roleName :: calls2, .error e3)
            | (s, calls2, .ok role) =>
                (s, calls ++ .deleteRole roleName :: calls2, .ok role)
        else (s, calls, .error (.aws code msg))
      | .plain m => (s, calls, .error (.plain m))

/-- `attachIAMPolices` (sic) from the awsfederatedaccountaccess controller: one
AttachRolePolicy call per policy ARN, stopping at the first error. -/
def attachIAMPolices {σ : Type} (client : AwsClient σ) (roleName : String) :
    σ → List String → σ × List AwsCall × Except GoAwsError Unit
  | s, [] => (s, [], .ok ())
  | s, pol :: rest =>
    match client.attachRolePolicy s roleName pol with
    | (s, .error e) => (s, [.attachRolePolicy roleName pol], .error e)
    | (s, .ok _) =>
      match attachIAMPolices client roleName s rest with
      | (s, calls, r) => (s, .attachRolePolicy roleName pol :: calls, r)

/-- `checkAndDeletePolicy` from the awsfederatedaccountaccess controller: delete
the policy (by its ARN) exactly when its name equals the expected
uid-suffixed custom-policy name; any delete error is propagated. -/
def checkAndDeletePolicy {σ : Type} (client : AwsClient σ) (s : σ)
    (uidLabel crPolicyName policyName policyArn : String) :
    σ × List AwsCall × Except GoAwsError Unit :=
  let awsCustomPolicyname := getPolicyNameWithUID "" crPolicyName uidLabel
  if policyName = awsCustomPolicyname then
    match client.deletePolicy s policyArn with
    | (s, .error e) => (s, [.deletePolicy policyArn], .error e)
    | (s, .ok _) => (s, [.deletePolicy policyArn], .ok ())
  else (s, [], .ok ())

/-- The inner loop of `deleteNonAttachedCustomPolicy`: run `checkAndDeletePolicy`
on every (name, arn) pair of one ListPolicies page, stopping at the first error. -/
def checkPoliciesLoop {σ : Type} (client : AwsClient σ) (uidLabel crPolicyName : String) :
    σ → List (String × String) → σ × List AwsCall × Except GoAwsError Unit
  | s, [] => (s, [], .ok ())
  | s, (policyName, arn) :: rest =>
    match checkAndDeletePolicy client s uidLabel crPolicyName policyName arn with
    | (s, calls, .error e) => (s, calls, .error e)
    | (s, calls, .ok _) =>
      match checkPoliciesLoop client uidLabel crPolicyName s rest with
      | (s, calls2, r) => (s, calls ++ calls2, r)

/-- The pagination loop of `deleteNonAttachedCustomPolicy`: page through all
account-local policies (Scope=Local) and check-and-delete each one; `fuel`
bounds the number of pages. -/
def policySweepLoop {σ : Type} (client : AwsClient σ) (uidLabel crPolicyName : String) :
    Nat → σ → Option String → Option (σ × List AwsCall × Except GoAwsError Unit)
  | 0, _, _ => none
  | fuel + 1, s, policyMarker =>
    match client.listPolicies s policyMarker with
    | (s, .error e) => some (s, [.listPolicies policyMarker], .error e)
    | (s, .ok out) =>
      match checkPoliciesLoop client uidLabel crPolicyName s out.policies with
      | (s, calls, .error e) =>
          some (s, .listPolicies policyMarker :: calls, .error e)
      | (s, calls, .ok _) =>
        if out.isTruncated then
          match policySweepLoop client uidLabel crPolicyName fuel s out.marker with
          | none => none
          | some (s, calls2, r) =>
              some (s, .listPolicies policyMarker :: calls ++ calls2, r)
        else some (s, .listPolicies policyMarker :: calls, .ok ())

/-- `deleteNonAttachedCustomPolicy` from the awsfederatedaccountaccess
controller: the defensive sweep deleting any account-local policy whose name
matches the expected uid-suffixed custom-policy name. -/
def deleteNonAttachedCustomPolicy {σ : Type} (fuel : Nat) (client : AwsClient σ)
    (s : σ) (currentFAA : AWSFederatedAccountAccess)
    (federatedRoleCR : AWSFederatedRole) :
    Option (σ × List AwsCall × Except GoAwsError Unit) :=
  match currentFAA.labels.uid with
  | none => some (s, [], .error (.plain "Unable to get UID label"))
  | some uidLabel =>
      policySweepLoop client uidLabel federatedRoleCR.spec.awsCustomPolicy.name fuel s none

/-- The body of the attached-policy loop of `cleanFederatedRoles` applied to one
page: detach every attached policy from the role and check-and-delete it,
stopping at the first error. -/
def detachPoliciesLoop {σ : Type} (client : AwsClient σ)
    (roleName uidLabel crPolicyName : String) :
    σ → List (String × String) → σ × List AwsCall × Except GoAwsError Unit
  | s, [] => (s, [], .ok ())
  | s, (policyName, arn) :: rest =>
    match client.detachRolePolicy s roleName arn with
    | (s, .error e) => (s, [.detachRolePolicy roleName arn], .error e)
    | (s, .ok _) =>
      match checkAndDeletePolicy client s uidLabel crPolicyName policyName arn with
      | (s, calls, .error e) => (s, .detachRolePolicy roleName arn :: calls, .error e)
      | (s, calls, .ok _) =>
        match detachPoliciesLoop client roleName uidLabel crPolicyName s rest with
        | (s, calls2, r) => (s, .detachRolePolicy roleName arn :: calls ++ calls2, r)

/-- The pagination loop over the role's attached policies in
`cleanFederatedRoles`.  A NoSuchEntity AWS error of the listing switches to the
defensive all-local-policy sweep and, on its success, returns early (the boolean
result is true exactly when that early return was taken, in which case the
caller skips the role deletion). -/
def attachedSweepLoop {σ : Type} (client : AwsClient σ)
    (roleName uidLabel crPolicyName : String) (sweepFuel : Nat)
    (currentFAA : AWSFederatedAccountAccess) (federatedRoleCR : AWSFederatedRole) :
    Nat → σ → Option String → Option (σ × List AwsCall × Except GoAwsError Bool)
  | 0, _, _ => none
  | fuel + 1, s, nextMarker =>
    match client.listAttachedRolePolicies s roleName nextMarker with
    | (s, .error e) =>
      match e with
      | .aws code msg =>
        if code = "NoSuchEntity" then
          match deleteNonAttachedCustomPolicy sweepFuel client s currentFAA federatedRoleCR with
          | none => none
          | some (s, calls, .error e2) =>
              some (s, .listAttachedRolePolicies roleName nextMarker :: calls, .error e2)
          | some (s, calls, .ok _) =>
              some (s, .listAttachedRolePolicies roleName nextMarker :: calls, .ok true)
        else some (s, [.listAttachedRolePolicies roleName nextMarker], .error (.aws code msg))
      | .plain m =>
          some (s, [.listAttachedRolePolicies roleName nextMarker], .error (.plain m))
    | (s, .ok out) =>
      match detachPoliciesLoop client roleName uidLabel crPolicyName s out.policies with
      | (s, calls, .error e) =>
          some (s, .listAttachedRolePolicies roleName nextMarker :: calls, .error e)
      | (s, calls, .ok _) =>
        if out.isTruncated then
          match attachedSweepLoop client roleName uidLabel crPolicyName sweepFuel
              currentFAA federatedRoleCR fuel s out.marker with
          | none => none
          | some (s, calls2, r) =>
              some (s, .listAttachedRolePolicies roleName nextMarker :: calls ++ calls2, r)
        else some (s, .listAttachedRolePolicies roleName nextMarker :: calls, .ok false)

/-- The tail of `cleanFederatedRoles` after a successful role assumption: build
the assumed-session client, run the attached-policy sweep, and unless the sweep
took the NoSuchEntity early return, delete the role. -/
def cleanFederatedRolesAssumed {σ : Type} (fuel : Nat) (client : AwsClient σ) (s : σ)
    (currentFAA : AWSFederatedAccountAccess) (federatedRoleCR : AWSFederatedRole)
    (roleName uidLabel : String) :
    Option (σ × List AwsCall × Except GoAwsError Unit) :=
  match client.getClient s with
  | (s, .error e) => some (s, [], .error e)
  | (s, .ok _) =>
    match attachedSweepLoop client roleName uidLabel
        federatedRoleCR.spec.awsCustomPolicy.name fuel currentFAA federatedRoleCR
        fuel s none with
    | none => none
    | some (s, calls, .error e) => some (s, calls, .error e)
    | some (s, calls, .ok true) => some (s, calls, .ok ())
    | some (s, calls, .ok false) =>
      match client.deleteRole s roleName with
      | (s, .error e) => some (s, calls ++ [.deleteRole roleName], .error e)
      | (s, .ok _) => some (s, calls ++ [.deleteRole roleName], .ok ())

/-- `cleanFederatedRoles` from the awsfederatedaccountaccess controller: the
teardown.  Missing uid / account-id labels with a state that never reached Ready
succeed vacuously before any client is built; otherwise assume the
OrganizationAccountAccessRole (falling back to BYOCAdminAccess-uid), page
through the role's attached policies detaching and check-and-deleting each, on a
NoSuchEntity listing error run the defensive local-policy sweep and stop, and
finally delete the role.  `fuel` bounds both pagination loops. -/
def cleanFederatedRoles {σ : Type} (fuel : Nat) (client : AwsClient σ) (s : σ)
    (currentFAA : AWSFederatedAccountAccess) (federatedRoleCR : AWSFederatedRole) :
    Option (σ × List AwsCall × Except GoAwsError Unit) :=
  match currentFAA.labels.uid with
  | none =>
      if currentFAA.status.state ≠ "Ready" then some (s, [], .ok ())
      else some (s, [], .error (.plain "Unable to get UID label"))
  | some uidLabel =>
    match currentFAA.labels.awsAccountID with
    | none =>
        if currentFAA.status.state ≠ "Ready" then some (s, [], .ok ())
        else some (s, [], .error (.plain "Unable to get AWS Account ID label"))
    | some accountIDLabel =>
      let roleName := currentFAA.spec.awsFederatedRole.name ++ "-" ++ uidLabel
      match client.getClient s with
      | (s, .error e) => some (s, [], .error e)
      | (s, .ok _) =>
        let orgRoleArn :=
          "arn:aws:iam::" ++ accountIDLabel ++ ":role/OrganizationAccountAccessRole"
        let byocRoleArn :=
          "arn:aws:iam::" ++ accountIDLabel ++ ":role/BYOCAdminAccess-" ++ uidLabel
        match client.assumeRole s orgRoleArn with
        | (s, .error _) =>
          (match client.assumeRole s byocRoleArn with
          | (s, .error e2) =>
              some (s, [.assumeRole orgRoleArn, .assumeRole byocRoleArn], .error e2)
          | (s, .ok _) =>
            match cleanFederatedRolesAssumed fuel client s currentFAA federatedRoleCR
                roleName uidLabel with
            | none => none
            | some (s, calls, r) =>
                some (s, .assumeRole orgRoleArn :: .assumeRole byocRoleArn :: calls, r))
        | (s, .ok _) =>
          match cleanFederatedRolesAssumed fuel client s currentFAA federatedRoleCR
              roleName uidLabel with
          | none => none
          | some (s, calls, r) => some (s, .assumeRole orgRoleArn :: calls, r)

/-- An observable action of a federated-account-access reconciliation pass:
an AWS provider call, or a Kubernetes update / status update carrying the
resource as written. -/
inductive ReconcileEvent where
  | aws (c : AwsCall)
  | kubeUpdate (faa : AWSFederatedAccountAccess)
  | kubeStatusUpdate (faa : AWSFederatedAccountAccess)
deriving DecidableEq

/-- The Kubernetes client operations the controller uses after fetching the
resources, as a stateful oracle. -/
structure KubeClient (κ : Type) where
  update : κ → AWSFederatedAccountAccess → κ × Except GoAwsError Unit
  statusUpdate : κ → AWSFederatedAccountAccess → κ × Except GoAwsError Unit

/-- Modelled from the spec: utils.Finalizer (pkg/utils, not under src), the
operator's finalizer marker string; its exact value is immaterial to every
claim. -/
def utilsFinalizer : String := "finalizer.aws.managed.openshift.io"

/-- `addFinalizer` from the awsfederatedaccountaccess controller: append the
finalizer marker and update the resource. -/
def addFinalizer {κ : Type} (kube : KubeClient κ) (k : κ)
    (faa : AWSFederatedAccountAccess) :
    κ × AWSFederatedAccountAccess × List ReconcileEvent × Except GoAwsError Unit :=
  let faa2 := { faa with finalizers := faa.finalizers ++ [utilsFinalizer] }
  match kube.update k faa2 with
  | (k, .error e) => (k, faa2, [.kubeUpdate faa2], .error e)
  | (k, .ok _) => (k, faa2, [.kubeUpdate faa2], .ok ())

/-- `removeFinalizer` from the awsfederatedaccountaccess controller: remove the
marker (utils.Remove, modelled as removing every occurrence) and update. -/
def removeFinalizer {κ : Type} (kube : KubeClient κ) (k : κ)
    (faa : AWSFederatedAccountAccess) (finalizerName : String) :
    κ × AWSFederatedAccountAccess × List ReconcileEvent × Except GoAwsError Unit :=
  let faa2 := { faa with finalizers := faa.finalizers.filter (fun f => f != finalizerName) }
  match kube.update k faa2 with
  | (k, .error e) => (k, faa2, [.kubeUpdate faa2], .error e)
  | (k, .ok _) => (k, faa2, [.kubeUpdate faa2], .ok ())

/-- The provisioning tail of the awsfederatedaccountaccess Reconcile (from the
terminal-state check to the Ready update): uid label assignment, client build,
identity discovery, account-id label assignment, policy create-or-replace, role
create-or-replace, console URL, policy attachment, final status. -/
def reconcileFAAProvision {σ κ : Type} (client : AwsClient σ) (kube : KubeClient κ)
    (s : σ) (k : κ) (currentFAA : AWSFederatedAccountAccess)
    (requestedRole : AWSFederatedRole) (freshUid : String) :
    σ × κ × AWSFederatedAccountAccess × List ReconcileEvent × Except GoAwsError Unit :=
  if currentFAA.status.state = "Ready" ∨ currentFAA.status.state = "Failed" then
    (s, k, currentFAA, [], .ok ())
  else
    let step1 : κ × AWSFederatedAccountAccess × List ReconcileEvent × Except GoAwsError Unit :=
      if ! hasLabel currentFAA "uid" then
        let faa := { currentFAA with labels := { currentFAA.labels with uid := some freshUid } }
        match kube.update k faa with
        | (k, .error e) => (k, faa, [.kubeUpdate faa], .error e)
        | (k, .ok _) => (k, faa, [.kubeUpdate faa], .ok ())
      else (k, currentFAA, [], .ok ())
    match step1 with
    | (k, faa, evs, .error e) => (s, k, faa, evs, .error e)
    | (k, faa, evs, .ok _) =>
      match faa.labels.uid with
      | none => (s, k, faa, evs, .ok ())
      | some uidLabel =>
        match client.getClient s with
        | (s, .error e) => (s, k, faa, evs, .error e)
        | (s, .ok _) =>
          match client.getCallerIdentity s with
          | (s, .error e) =>
            let faa := SetStatuswithCondition faa "Failed to get account ID information"
              "Failed" "Failed"
            (match kube.statusUpdate k faa with
            | (k, .error e2) =>
                (s, k, faa, evs ++ [.aws .getCallerIdentity, .kubeStatusUpdate faa], .error e2)
            | (k, .ok _) =>
                (s, k, faa, evs ++ [.aws .getCallerIdentity, .kubeStatusUpdate faa], .error e))
          | (s, .ok accountID) =>
            let evs := evs ++ [.aws .getCallerIdentity]
            let step2 : κ × AWSFederatedAccountAccess × List ReconcileEvent × Except GoAwsError Unit :=
              if ! hasLabel faa "awsAccountID" then
                let faa2 := { faa with labels := { faa.labels with awsAccountID := some accountID } }
                match kube.update k faa2 with
                | (k, .error e) => (k, faa2, [.kubeUpdate faa2], .error e)
                | (k, .ok _) => (k, faa2, [.kubeUpdate faa2], .ok ())
              else (k, faa, [], .ok ())
            match step2 with
            | (k, faa, evs2, .error e) => (s, k, faa, evs ++ evs2, .error e)
            | (k, faa, evs2, .ok _) =>
              let evs := evs ++ evs2
              match createOrUpdateIAMPolicy client s requestedRole faa with
              | (s, calls, .error _) =>
                let faa := SetStatuswithCondition faa "Failed to create custom policy"
                  "Failed" "Failed"
                (match kube.statusUpdate k faa with
                | (k, .error e2) =>
                    (s, k, faa, evs ++ calls.map .aws ++ [.kubeStatusUpdate faa], .error e2)
                | (k, .ok _) =>
                    (s, k, faa, evs ++ calls.map .aws ++ [.kubeStatusUpdate faa], .ok ()))
              | (s, calls, .ok _) =>
                let evs := evs ++ calls.map .aws
                match createOrUpdateIAMRole client s requestedRole faa with
                | (s, calls2, .error _) =>
                  let faa := SetStatuswithCondition faa "Failed to create role"
                    "Failed" "Failed"
                  (match kube.statusUpdate k faa with
                  | (k, .error e2) =>
                      (s, k, faa, evs ++ calls2.map .aws ++ [.kubeStatusUpdate faa], .error e2)
                  | (k, .ok _) =>
                      (s, k, faa, evs ++ calls2.map .aws ++ [.kubeStatusUpdate faa], .ok ()))
                | (s, calls2, .ok roleRoleName) =>
                  let evs := evs ++ calls2.map .aws
                  let faa := { faa with status := { faa.status with consoleURL :=
                    "https://signin.aws.amazon.com/switchrole?account=" ++ accountID ++
                      "&roleName=" ++ roleRoleName } }
                  let awsManagedPolicyNames := requestedRole.spec.awsManagedPolicies
                  let policyArns := createPolicyArns accountID awsManagedPolicyNames true
                  let customPolicy :=
                    [requestedRole.spec.awsCustomPolicy.name ++ "-" ++ uidLabel]
                  let customerPolArns := createPolicyArns accountID customPolicy false
                  let policyArns := policyArns ++ [customerPolArns.headD ""]
                  match attachIAMPolices client
                      (faa.spec.awsFederatedRole.name ++ "-" ++ uidLabel) s policyArns with
                  | (s, calls3, .error _) =>
                    let faa := SetStatuswithCondition faa "Failed to attach policies to role"
                      "Failed" "Failed"
                    (match kube.statusUpdate k faa with
                    | (k, .error e2) =>
                        (s, k, faa, evs ++ calls3.map .aws ++ [.kubeStatusUpdate faa], .error e2)
                    | (k, .ok _) =>
                        (s, k, faa, evs ++ calls3.map .aws ++ [.kubeStatusUpdate faa], .ok ()))
                  | (s, calls3, .ok _) =>
                    let evs := evs ++ calls3.map .aws
                    let faa := SetStatuswithCondition faa "Account Access Ready" "Ready" "Ready"
                    match kube.statusUpdate k faa with
                    | (k, .error e2) => (s, k, faa, evs ++ [.kubeStatusUpdate faa], .error e2)
                    | (k, .ok _) => (s, k, faa, evs ++ [.kubeStatusUpdate faa], .ok ())

/-- The awsfederatedaccountaccess Reconcile pass, starting after the two
successful fetches of the AWSFederatedAccountAccess and its AWSFederatedRole:
add the finalizer and return if it is missing; on a deletion marker run the
teardown and, only on its success, remove the finalizer; then (the Go code falls
through) run the provisioning tail guarded by the terminal-state check. -/
def ReconcileFAA {σ κ : Type} (fuel : Nat) (client : AwsClient σ) (kube : KubeClient κ)
    (s : σ) (k : κ) (currentFAA : AWSFederatedAccountAccess)
    (requestedRole : AWSFederatedRole) (freshUid : String) :
    Option (σ × κ × AWSFederatedAccountAccess × List ReconcileEvent × Except GoAwsError Unit) :=
  if ! currentFAA.finalizers.contains utilsFinalizer then
    match addFinalizer kube k currentFAA with
    | (k, faa, evs, r) => some (s, k, faa, evs, r)
  else if currentFAA.deletionTimestamp then
    match cleanFederatedRoles fuel client s currentFAA requestedRole with
    | none => none
    | some (s, calls, .error e) => some (s, k, currentFAA, calls.map .aws, .error e)
    | some (s, calls, .ok _) =>
      match removeFinalizer kube k currentFAA utilsFinalizer with
      | (k, faa, evs2, .error e) => some (s, k, faa, calls.map .aws ++ evs2, .error e)
      | (k, faa, evs2, .ok _) =>
        match reconcileFAAProvision client kube s k faa requestedRole freshUid with
        | (s, k, faa, evs3, r) => some (s, k, faa, calls.map .aws ++ evs2 ++ evs3, r)
  else
    some (reconcileFAAProvision client kube s k currentFAA requestedRole freshUid)

/-- `removeFinalizer` always writes the resource with the marker filtered out,
in a single update event. -/
theorem removeFinalizer_spec {κ : Type} (kube : KubeClient κ) (k : κ)
    (faa : AWSFederatedAccountAccess) (name : String) :
    (removeFinalizer kube k faa name).2.1 =
      { faa with finalizers := faa.finalizers.filter (fun f => f != name) } ∧
    (removeFinalizer kube k faa name).2.2.1 =
      [.kubeUpdate { faa with finalizers := faa.finalizers.filter (fun f => f != name) }] := by
  rcases hupd : kube.update k { faa with
      finalizers := faa.finalizers.filter (fun f => f != name) } with ⟨k2, r⟩
  cases r <;> simp [removeFinalizer, hupd]

/-- After a successful teardown of a deletion-marked resource, the pass issues
the finalizer-removal update as its first action after the teardown's own calls. -/
theorem reconcileFAA_removes_finalizer {σ κ : Type} {fuel : Nat} {client : AwsClient σ}
    {kube : KubeClient κ} {s : σ} {k : κ} {currentFAA : AWSFederatedAccountAccess}
    {requestedRole : AWSFederatedRole} {freshUid : String} {s' : σ} {calls : List AwsCall}
    (hfin : currentFAA.finalizers.contains utilsFinalizer = true)
    (hdel : currentFAA.deletionTimestamp = true)
    (hclean : cleanFederatedRoles fuel client s currentFAA requestedRole =
      some (s', calls, .ok ())) :
    ∃ tl, (ReconcileFAA fuel client kube s k currentFAA requestedRole freshUid).map
        (fun out => out.2.2.2.1) =
      some (calls.map .aws ++ .kubeUpdate { currentFAA with
        finalizers := currentFAA.finalizers.filter (fun f => f != utilsFinalizer) } :: tl) := by
  unfold ReconcileFAA
  rw [if_neg (by rw [hfin]; simp), if_pos hdel]
  rcases hrf : removeFinalizer kube k currentFAA utilsFinalizer with ⟨k2, faa2, evs2, r2⟩
  have hspec := removeFinalizer_spec kube k currentFAA utilsFinalizer
  rw [hrf] at hspec
  simp only at hspec
  obtain ⟨hfaa2, hevs2⟩ := hspec
  cases r2 with
  | error e => exact ⟨[], by simp [hclean, hrf, hevs2]⟩
  | ok _ =>
      rcases hprov : reconcileFAAProvision client kube s' k2 faa2 requestedRole freshUid
        with ⟨s3, k3, faa3, evs3, r3⟩
      exact ⟨evs3, by simp [hclean, hrf, hprov, hevs2]⟩

/-- C9: the finalizer protocol of the federated-account-access Reconcile.
(1) A resource observed without the finalizer gets it appended in a single
Kubernetes update, and the pass returns right away: its whole event trace is
that one update — no provisioning step, no provider call.  (2) On a pass
observing a deletion marker with the finalizer present whose teardown fails,
the pass returns the teardown error with the resource unchanged (finalizer
still in place) and its event trace consists solely of the teardown's AWS
calls — no Kubernetes update at all, in particular no finalizer removal.
(3) When the teardown succeeds instead, the finalizer-removal update is the
very next action after the teardown's calls. -/
theorem reconcileFAA_finalizer_protocol {σ κ : Type} (fuel : Nat) (client : AwsClient σ)
    (kube : KubeClient κ) (s : σ) (k : κ) (currentFAA : AWSFederatedAccountAccess)
    (requestedRole : AWSFederatedRole) (freshUid : String) :
    (currentFAA.finalizers.contains utilsFinalizer = false →
      ∃ k2 r, ReconcileFAA fuel client kube s k currentFAA requestedRole freshUid =
        some (s, k2,
          { currentFAA with finalizers := currentFAA.finalizers ++ [utilsFinalizer] },
          [.kubeUpdate
            { currentFAA with finalizers := currentFAA.finalizers ++ [utilsFinalizer] }], r))
    ∧ (∀ s' calls e, currentFAA.finalizers.contains utilsFinalizer = true →
        currentFAA.deletionTimestamp = true →
        cleanFederatedRoles fuel client s currentFAA requestedRole =
          some (s', calls, .error e) →
        ReconcileFAA fuel client kube s k currentFAA requestedRole freshUid =
          some (s', k, currentFAA, calls.map .aws, .error e))
    ∧ (∀ s' calls, currentFAA.finalizers.contains utilsFinalizer = true →
        currentFAA.deletionTimestamp = true →
        cleanFederatedRoles fuel client s currentFAA requestedRole =
          some (s', calls, .ok ()) →
        ∃ tl, (ReconcileFAA fuel client kube s k currentFAA requestedRole freshUid).map
            (fun out => out.2.2.2.1) =
          some (calls.map .aws ++ .kubeUpdate { currentFAA with
            finalizers := currentFAA.finalizers.filter (fun f => f != utilsFinalizer) } :: tl)) := by
  refine ⟨?_, ?_, ?_⟩
  · intro hfin
    unfold ReconcileFAA
    rw [if_pos (by rw [hfin]; rfl)]
    unfold addFinalizer
    rcases hupd : kube.update k { currentFAA with
        finalizers := currentFAA.finalizers ++ [utilsFinalizer] } with ⟨k2, r⟩
    cases r with
    | error e => exact ⟨k2, .error e, by simp [hupd]⟩
    | ok _ => exact ⟨k2, .ok (), by simp [hupd]⟩
  · intro s' calls e hfin hdel hclean
    unfold ReconcileFAA
    rw [if_neg (by rw [hfin]; simp), if_pos hdel]
    simp [hclean]
  · intro s' calls hfin hdel hclean
    exact reconcileFAA_removes_finalizer hfin hdel hclean

/-- A trivial AWS client over the unit state: every call succeeds and both
listings return one empty final page. -/
def okAwsClient : AwsClient Unit where
  getClient := fun s => (s, .ok ())
  getCallerIdentity := fun s => (s, .ok "123456789012")
  createPolicy := fun s input => (s, .ok ("arn:aws:iam::123456789012:policy/" ++ input.policyName))
  deletePolicy := fun s _ => (s, .ok ())
  createRole := fun s input => (s, .ok input.roleName)
  deleteRole := fun s _ => (s, .ok ())
  attachRolePolicy := fun s _ _ => (s, .ok ())
  detachRolePolicy := fun s _ _ => (s, .ok ())
  listAttachedRolePolicies := fun s _ _ => (s, .ok ⟨[], false, none⟩)
  listPolicies := fun s _ => (s, .ok ⟨[], false, none⟩)
  assumeRole := fun s _ => (s, .ok ())

/-- A trivial Kubernetes client over the unit state: every update succeeds. -/
def okKubeClient : KubeClient Unit where
  update := fun k _ => (k, .ok ())
  statusUpdate := fun k _ => (k, .ok ())

/-- A federated role template used by the concrete scenarios. -/
def witRole : AWSFederatedRole :=
  { name := "exrole", finalizers := [], deletionTimestamp := false,
    spec := ⟨"Example", "desc", ⟨"expolicy", "d", []⟩, []⟩, status := ⟨"", []⟩ }

/-- A fresh access request: no finalizer yet, nothing provisioned. -/
def witFAANoFinalizer : AWSFederatedAccountAccess :=
  { labels := ⟨none, none⟩, finalizers := [], deletionTimestamp := false,
    spec := ⟨⟨"exrole"⟩, "arn:aws:iam::555555555555:role/customer"⟩,
    status := ⟨"", [], ""⟩ }

/-- Witness for the C9 theorem: a fresh resource without the finalizer gains it
in a single update and the pass performs nothing else. -/
theorem reconcileFAA_finalizer_protocol_witness :
    ∃ k2 r, ReconcileFAA 3 okAwsClient okKubeClient () () witFAANoFinalizer witRole "u" =
      some ((), k2, { witFAANoFinalizer with finalizers := [utilsFinalizer] },
        [.kubeUpdate { witFAANoFinalizer with finalizers := [utilsFinalizer] }], r) :=
  (reconcileFAA_finalizer_protocol 3 okAwsClient okKubeClient () () witFAANoFinalizer
    witRole "u").1 rfl

/-- C8: a teardown with the uid label or the account-id label absent and a state
that never reached Ready succeeds without issuing a single provider call, and in
the reconcile pass the finalizer-removal update is then the first action of the
whole event trace — in particular no delete was attempted before it. -/
theorem cleanFederatedRoles_vacuous {σ κ : Type} (fuel : Nat) (client : AwsClient σ)
    (kube : KubeClient κ) (s : σ) (k : κ) (currentFAA : AWSFederatedAccountAccess)
    (federatedRoleCR : AWSFederatedRole) (freshUid : String)
    (hlab : currentFAA.labels.uid = none ∨ currentFAA.labels.awsAccountID = none)
    (hstate : currentFAA.status.state ≠ "Ready") :
    cleanFederatedRoles fuel client s currentFAA federatedRoleCR = some (s, [], .ok ()) ∧
    (currentFAA.deletionTimestamp = true →
      currentFAA.finalizers.contains utilsFinalizer = true →
      ∃ tl, (ReconcileFAA fuel client kube s k currentFAA federatedRoleCR freshUid).map
          (fun out => out.2.2.2.1) =
        some (.kubeUpdate { currentFAA with
          finalizers := currentFAA.finalizers.filter (fun f => f != utilsFinalizer) } :: tl)) := by
  have h1 : cleanFederatedRoles fuel client s currentFAA federatedRoleCR =
      some (s, [], .ok ()) := by
    unfold cleanFederatedRoles
    rcases hlab with h | h
    · rw [h]
      simp [hstate]
    · cases huid : currentFAA.labels.uid with
      | none => simp [hstate]
      | some u =>
          rw [h]
          simp [hstate]
  refine ⟨h1, fun hdel hfin => ?_⟩
  exact reconcileFAA_removes_finalizer hfin hdel h1

/-- A deletion-marked access request with the finalizer but no uid label and a
state that never reached Ready. -/
def witFAADeleting : AWSFederatedAccountAccess :=
  { labels := ⟨none, none⟩, finalizers := [utilsFinalizer], deletionTimestamp := true,
    spec := ⟨⟨"exrole"⟩, "arn:aws:iam::555555555555:role/customer"⟩,
    status := ⟨"", [], ""⟩ }

/-- Witness for the C8 theorem: the vacuous teardown at a concrete input. -/
theorem cleanFederatedRoles_vacuous_witness :
    cleanFederatedRoles 3 okAwsClient () witFAADeleting witRole = some ((), [], .ok ()) :=
  (cleanFederatedRoles_vacuous 3 okAwsClient okKubeClient () () witFAADeleting witRole "u"
    (Or.inl rfl) (by decide)).1

/-- The C3 scenario client: CreatePolicy fails with a non-conflict AWS error
(code LimitExceeded); every other call succeeds. -/
def c3Client : AwsClient Unit :=
  { okAwsClient with
    createPolicy := fun s _ => (s, .error (.aws "LimitExceeded" "policy limit reached")) }

/-- The C3 scenario request: finalizer present, labels assigned, state empty
(not yet Ready/Failed), not being deleted. -/
def c3FAA : AWSFederatedAccountAccess :=
  { labels := ⟨some "abc", some "123456789012"⟩, finalizers := [utilsFinalizer],
    deletionTimestamp := false,
    spec := ⟨⟨"exrole"⟩, "arn:aws:iam::555555555555:role/customer"⟩,
    status := ⟨"", [], ""⟩ }

/-- C3: when creating the custom policy fails with a provider error that is not
an "already exists" conflict, `createOrUpdateIAMPolicy` swallows the error and
reports success, so the reconcile pass does NOT set the state to Failed and DOES
perform further provisioning: at this concrete input the pass issues the
CreateRole call, attaches policies, and finishes with state Ready — contradicting
the claim (and spec §4.5.6), which the surrounding code's own comment ("if we
were unable to create the policy fail this CR") and the sibling
`createOrUpdateIAMRole` (which propagates unexpected errors) show to be the
intent. -/
theorem createPolicy_error_swallowed :
    (c3Client.createPolicy () ⟨"expolicy-abc", "d", []⟩).2 =
      .error (.aws "LimitExceeded" "policy limit reached") ∧
    (createOrUpdateIAMPolicy c3Client () witRole c3FAA).2.2 = .ok () ∧
    (ReconcileFAA 3 c3Client okKubeClient () () c3FAA witRole "abc").map
      (fun out => (out.2.2.1.status.state,
        out.2.2.2.1.contains (.aws (.createRole ⟨"exrole-abc", "desc",
          ["arn:aws:iam::555555555555:role/customer"]⟩)),
        out.2.2.2.2)) = some ("Ready", true, .ok ()) :=
  ⟨rfl, rfl, rfl⟩

/-- A client's listings are consistent with a global naming of policies:
every (name, arn) pair any listing page returns satisfies name = nameOf arn. -/
def ListingsConsistent {σ : Type} (client : AwsClient σ) (nameOf : String → String) : Prop :=
  (∀ s roleName marker s' out,
      client.listAttachedRolePolicies s roleName marker = (s', .ok out) →
      ∀ p ∈ out.policies, p.1 = nameOf p.2) ∧
  (∀ s marker s' out, client.listPolicies s marker = (s', .ok out) →
      ∀ p ∈ out.policies, p.1 = nameOf p.2)

/-- Every DeletePolicy call in the list targets a policy whose name is the
expected one. -/
def DeletesOnlyExpected (nameOf : String → String) (expected : String)
    (calls : List AwsCall) : Prop :=
  ∀ arn, AwsCall.deletePolicy arn ∈ calls → nameOf arn = expected

/-- Concatenation preserves the delete frame condition. -/
theorem deletesOnlyExpected_append {nameOf : String → String} {expected : String}
    {c1 c2 : List AwsCall} (h1 : DeletesOnlyExpected nameOf expected c1)
    (h2 : DeletesOnlyExpected nameOf expected c2) :
    DeletesOnlyExpected nameOf expected (c1 ++ c2) := fun arn h =>
  (List.mem_append.mp h).elim (h1 arn) (h2 arn)

/-- A head that is not a DeletePolicy call preserves the delete frame condition. -/
theorem deletesOnlyExpected_cons {nameOf : String → String} {expected : String}
    {c : AwsCall} {calls : List AwsCall}
    (hc : ∀ arn, c = .deletePolicy arn → nameOf arn = expected)
    (h : DeletesOnlyExpected nameOf expected calls) :
    DeletesOnlyExpected nameOf expected (c :: calls) := by
  intro arn hm
  rcases List.mem_cons.mp hm with h1 | h1
  · exact hc arn h1.symm
  · exact h arn h1

/-- The empty trace trivially satisfies the delete frame condition. -/
theorem deletesOnlyExpected_nil {nameOf : String → String} {expected : String} :
    DeletesOnlyExpected nameOf expected [] := fun arn h => absurd h (by simp)

/-- `checkAndDeletePolicy` deletes only a policy whose listed name matched the
expected uid-suffixed name. -/
theorem checkAndDeletePolicy_deletes {σ : Type} {client : AwsClient σ} {s : σ}
    {uidLabel crPolicyName policyName policyArn : String} {nameOf : String → String}
    (hname : policyName = nameOf policyArn) :
    DeletesOnlyExpected nameOf (getPolicyNameWithUID "" crPolicyName uidLabel)
      (checkAndDeletePolicy client s uidLabel crPolicyName policyName policyArn).2.1 := by
  unfold checkAndDeletePolicy
  by_cases heq : policyName = getPolicyNameWithUID "" crPolicyName uidLabel
  · rw [if_pos heq]
    rcases client.deletePolicy s policyArn with ⟨s2, r⟩
    have hgoal : ∀ arn, AwsCall.deletePolicy arn ∈ [AwsCall.deletePolicy policyArn] →
        nameOf arn = getPolicyNameWithUID "" crPolicyName uidLabel := by
      intro arn hm
      have harn : arn = policyArn := by
        have h1 := List.mem_singleton.mp hm
        injection h1
      rw [harn]
      exact hname.symm.trans heq
    cases r <;> exact hgoal
  · rw [if_neg heq]
    exact deletesOnlyExpected_nil

/-- One page of `checkPoliciesLoop` deletes only expected-named policies, given
that the page's pairs carry consistent names. -/
theorem checkPoliciesLoop_deletes {σ : Type} {client : AwsClient σ}
    {uidLabel crPolicyName : String} {nameOf : String → String}
    (pairs : List (String × String)) (hp : ∀ p ∈ pairs, p.1 = nameOf p.2) :
    ∀ s, DeletesOnlyExpected nameOf (getPolicyNameWithUID "" crPolicyName uidLabel)
      (checkPoliciesLoop client uidLabel crPolicyName s pairs).2.1 := by
  induction pairs with
  | nil => intro s; exact deletesOnlyExpected_nil
  | cons hd tl ih =>
      intro s
      obtain ⟨pn, arn0⟩ := hd
      unfold checkPoliciesLoop
      rcases hcd : checkAndDeletePolicy client s uidLabel crPolicyName pn arn0
        with ⟨s2, calls, r⟩
      have h1 : DeletesOnlyExpected nameOf
          (getPolicyNameWithUID "" crPolicyName uidLabel) calls := by
        have h0 := @checkAndDeletePolicy_deletes σ client s uidLabel crPolicyName
          pn arn0 nameOf (hp (pn, arn0) (by simp))
        rw [hcd] at h0
        exact h0
      cases r with
      | error e => exact h1
      | ok _ =>
          exact deletesOnlyExpected_append h1
            (ih (fun p hpmem => hp p (List.mem_cons_of_mem _ hpmem)) s2)

/-- The local-policy pagination sweep deletes only expected-named policies. -/
theorem policySweepLoop_deletes {σ : Type} {client : AwsClient σ}
    {uidLabel crPolicyName : String} {nameOf : String → String}
    (hcons : ∀ s marker s' out, client.listPolicies s marker = (s', .ok out) →
      ∀ p ∈ out.policies, p.1 = nameOf p.2) :
    ∀ fuel s marker res,
      policySweepLoop client uidLabel crPolicyName fuel s marker = some res →
      DeletesOnlyExpected nameOf (getPolicyNameWithUID "" crPolicyName uidLabel) res.2.1 := by
  intro fuel
  induction fuel with
  | zero => intro s marker res h; simp [policySweepLoop] at h
  | succ fuel ih =>
      intro s marker res h
      unfold policySweepLoop at h
      rcases hlp : client.listPolicies s marker with ⟨s1, r⟩
      rw [hlp] at h
      cases r with
      | error e =>
          dsimp only at h
          have hres := (Option.some.inj h).symm
          subst hres
          exact deletesOnlyExpected_cons (fun arn harn => by simp at harn)
            deletesOnlyExpected_nil
      | ok out =>
          dsimp only at h
          have hnames := hcons s marker s1 out hlp
          rcases hcp : checkPoliciesLoop client uidLabel crPolicyName s1 out.policies
            with ⟨s2, calls, r2⟩
          rw [hcp] at h
          have h1 : DeletesOnlyExpected nameOf
              (getPolicyNameWithUID "" crPolicyName uidLabel) calls := by
            have h0 := @checkPoliciesLoop_deletes σ client uidLabel crPolicyName
              nameOf out.policies hnames s1
            rw [hcp] at h0
            exact h0
          cases r2 with
          | error e =>
              have hres := (Option.some.inj h).symm
              subst hres
              exact deletesOnlyExpected_cons (fun arn harn => by simp at harn) h1
          | ok _ =>
              dsimp only at h
              cases htr : out.isTruncated with
              | false =>
                  rw [htr] at h
                  rw [if_neg (by decide)] at h
                  have hres := (Option.some.inj h).symm
                  subst hres
                  exact deletesOnlyExpected_cons (fun arn harn => by simp at harn) h1
              | true =>
                  rw [htr] at h
                  rw [if_pos (by decide)] at h
                  rcases hrec : policySweepLoop client uidLabel crPolicyName fuel s2 out.marker
                    with _ | res2
                  · rw [hrec] at h
                    simp at h
                  · rw [hrec] at h
                    have hres := (Option.some.inj h).symm
                    subst hres
                    refine deletesOnlyExpected_cons (fun arn harn => by simp at harn)
                      (deletesOnlyExpected_append h1 ?_)
                    have h0 := ih s2 out.marker res2 hrec
                    exact h0

/-- One page of the attached-policy loop deletes only expected-named policies. -/
theorem detachPoliciesLoop_deletes {σ : Type} {client : AwsClient σ}
    {roleName uidLabel crPolicyName : String} {nameOf : String → String}
    (pairs : List (String × String)) (hp : ∀ p ∈ pairs, p.1 = nameOf p.2) :
    ∀ s, DeletesOnlyExpected nameOf (getPolicyNameWithUID "" crPolicyName uidLabel)
      (detachPoliciesLoop client roleName uidLabel crPolicyName s pairs).2.1 := by
  induction pairs with
  | nil => intro s; exact deletesOnlyExpected_nil
  | cons hd tl ih =>
      intro s
      obtain ⟨pn, arn0⟩ := hd
      unfold detachPoliciesLoop
      rcases hdet : client.detachRolePolicy s roleName arn0 with ⟨s1, r1⟩
      cases r1 with
      | error e =>
          refine deletesOnlyExpected_cons (fun arn harn => ?_) deletesOnlyExpected_nil
          simp at harn
      | ok _ =>
          dsimp only
          rcases hcd : checkAndDeletePolicy client s1 uidLabel crPolicyName pn arn0
            with ⟨s2, calls, r2⟩
          have h1 : DeletesOnlyExpected nameOf
              (getPolicyNameWithUID "" crPolicyName uidLabel) calls := by
            have h0 := @checkAndDeletePolicy_deletes σ client s1 uidLabel crPolicyName
              pn arn0 nameOf (hp (pn, arn0) (by simp))
            rw [hcd] at h0
            exact h0
          cases r2 with
          | error e =>
              refine deletesOnlyExpected_cons (fun arn harn => ?_) h1
              simp at harn
          | ok _ =>
              refine deletesOnlyExpected_cons (fun arn harn => ?_)
                (deletesOnlyExpected_append h1
                  (ih (fun p hm => hp p (List.mem_cons_of_mem _ hm)) s2))
              simp at harn

/-- The defensive local-policy sweep deletes only expected-named policies. -/
theorem deleteNonAttachedCustomPolicy_deletes {σ : Type} {client : AwsClient σ}
    {nameOf : String → String}
    (hcons : ∀ s marker s' out, client.listPolicies s marker = (s', .ok out) →
      ∀ p ∈ out.policies, p.1 = nameOf p.2)
    {currentFAA : AWSFederatedAccountAccess} {federatedRoleCR : AWSFederatedRole}
    {uidLabel : String} (huid : currentFAA.labels.uid = some uidLabel) :
    ∀ fuel s res,
      deleteNonAttachedCustomPolicy fuel client s currentFAA federatedRoleCR = some res →
      DeletesOnlyExpected nameOf
        (getPolicyNameWithUID "" federatedRoleCR.spec.awsCustomPolicy.name uidLabel)
        res.2.1 := by
  intro fuel s res h
  unfold deleteNonAttachedCustomPolicy at h
  rw [huid] at h
  dsimp only at h
  exact policySweepLoop_deletes hcons fuel s none res h

/-- The attached-policy pagination loop (including its switch to the defensive
sweep) deletes only expected-named policies. -/
theorem attachedSweepLoop_deletes {σ : Type} {client : AwsClient σ}
    {nameOf : String → String} (hcons : ListingsConsistent client nameOf)
    {roleName uidLabel : String} {sweepFuel : Nat}
    {currentFAA : AWSFederatedAccountAccess} {federatedRoleCR : AWSFederatedRole}
    (huid : currentFAA.labels.uid = some uidLabel) :
    ∀ fuel s marker res,
      attachedSweepLoop client roleName uidLabel federatedRoleCR.spec.awsCustomPolicy.name
        sweepFuel currentFAA federatedRoleCR fuel s marker = some res →
      DeletesOnlyExpected nameOf
        (getPolicyNameWithUID "" federatedRoleCR.spec.awsCustomPolicy.name uidLabel)
        res.2.1 := by
  intro fuel
  induction fuel with
  | zero => intro s marker res h; simp [attachedSweepLoop] at h
  | succ fuel ih =>
      intro s marker res h
      unfold attachedSweepLoop at h
      rcases hlar : client.listAttachedRolePolicies s roleName marker with ⟨s1, r⟩
      rw [hlar] at h
      cases r with
      | error e =>
          cases e with
          | aws code msg =>
              dsimp only at h
              by_cases hc : code = "NoSuchEntity"
              · rw [if_pos hc] at h
                rcases hdn : deleteNonAttachedCustomPolicy sweepFuel client s1 currentFAA
                    federatedRoleCR with _ | res2
                · rw [hdn] at h
                  simp at h
                · rw [hdn] at h
                  rcases res2 with ⟨s2, calls2, r2⟩
                  have h2 := deleteNonAttachedCustomPolicy_deletes hcons.2 huid
                    sweepFuel s1 (s2, calls2, r2) hdn
                  cases r2 with
                  | error e2 =>
                      dsimp only at h
                      have hres := (Option.some.inj h).symm
                      subst hres
                      exact deletesOnlyExpected_cons (fun arn harn => by simp at harn) h2
                  | ok _ =>
                      dsimp only at h
                      have hres := (Option.some.inj h).symm
                      subst hres
                      exact deletesOnlyExpected_cons (fun arn harn => by simp at harn) h2
              · rw [if_neg hc] at h
                have hres := (Option.some.inj h).symm
                subst hres
                exact deletesOnlyExpected_cons (fun arn harn => by simp at harn)
                  deletesOnlyExpected_nil
          | plain m =>
              dsimp only at h
              have hres := (Option.some.inj h).symm
              subst hres
              exact deletesOnlyExpected_cons (fun arn harn => by simp at harn)
                deletesOnlyExpected_nil
      | ok out =>
          dsimp only at h
          have hnames := hcons.1 s roleName marker s1 out hlar
          rcases hdp : detachPoliciesLoop client roleName uidLabel
              federatedRoleCR.spec.awsCustomPolicy.name s1 out.policies with ⟨s2, calls, r2⟩
          rw [hdp] at h
          have h1 : DeletesOnlyExpected nameOf
              (getPolicyNameWithUID "" federatedRoleCR.spec.awsCustomPolicy.name uidLabel)
              calls := by
            have h0 := @detachPoliciesLoop_deletes σ client roleName uidLabel
              federatedRoleCR.spec.awsCustomPolicy.name nameOf out.policies hnames s1
            rw [hdp] at h0
            exact h0
          cases r2 with
          | error e =>
              have hres := (Option.some.inj h).symm
              subst hres
              exact deletesOnlyExpected_cons (fun arn harn => by simp at harn) h1
          | ok _ =>
              dsimp only at h
              cases htr : out.isTruncated with
              | false =>
                  rw [htr] at h
                  rw [if_neg (by decide)] at h
                  have hres := (Option.some.inj h).symm
                  subst hres
                  exact deletesOnlyExpected_cons (fun arn harn => by simp at harn) h1
              | true =>
                  rw [htr] at h
                  rw [if_pos (by decide)] at h
                  rcases hrec : attachedSweepLoop client roleName uidLabel
                      federatedRoleCR.spec.awsCustomPolicy.name sweepFuel currentFAA
                      federatedRoleCR fuel s2 out.marker with _ | res2
                  · rw [hrec] at h
                    simp at h
                  · rw [hrec] at h
                    have hres := (Option.some.inj h).symm
                    subst hres
                    exact deletesOnlyExpected_cons (fun arn harn => by simp at harn)
                      (deletesOnlyExpected_append h1 (ih s2 out.marker res2 hrec))

/-- The post-assumption teardown tail deletes only expected-named policies (the
role deletion is a DeleteRole call, not a policy deletion). -/
theorem cleanFederatedRolesAssumed_deletes {σ : Type} {client : AwsClient σ}
    {nameOf : String → String} (hcons : ListingsConsistent client nameOf)
    {currentFAA : AWSFederatedAccountAccess} {federatedRoleCR : AWSFederatedRole}
    {uidLabel roleName : String} (huid : currentFAA.labels.uid = some uidLabel) :
    ∀ fuel s res,
      cleanFederatedRolesAssumed fuel client s currentFAA federatedRoleCR
        roleName uidLabel = some res →
      DeletesOnlyExpected nameOf
        (getPolicyNameWithUID "" federatedRoleCR.spec.awsCustomPolicy.name uidLabel)
        res.2.1 := by
  intro fuel s res h
  unfold cleanFederatedRolesAssumed at h
  rcases hgc : client.getClient s with ⟨s1, r1⟩
  rw [hgc] at h
  cases r1 with
  | error e =>
      dsimp only at h
      have hres := (Option.some.inj h).symm
      subst hres
      exact deletesOnlyExpected_nil
  | ok _ =>
      dsimp only at h
      rcases hsw : attachedSweepLoop client roleName uidLabel
          federatedRoleCR.spec.awsCustomPolicy.name fuel currentFAA federatedRoleCR
          fuel s1 none with _ | res2
      · rw [hsw] at h
        simp at h
      · rw [hsw] at h
        rcases res2 with ⟨s2, calls, r2⟩
        have h1 := attachedSweepLoop_deletes hcons huid fuel s1 none (s2, calls, r2) hsw
        cases r2 with
        | error e =>
            dsimp only at h
            have hres := (Option.some.inj h).symm
            subst hres
            exact h1
        | ok b =>
            cases b with
            | true =>
                dsimp only at h
                have hres := (Option.some.inj h).symm
                subst hres
                exact h1
            | false =>
                dsimp only at h
                rcases hdr : client.deleteRole s2 roleName with ⟨s3, r3⟩
                rw [hdr] at h
                cases r3 with
                | error e =>
                    dsimp only at h
                    have hres := (Option.some.inj h).symm
                    subst hres
                    refine deletesOnlyExpected_append h1 (fun arn harn => ?_)
                    simp at harn
                | ok _ =>
                    dsimp only at h
                    have hres := (Option.some.inj h).symm
                    subst hres
                    refine deletesOnlyExpected_append h1 (fun arn harn => ?_)
                    simp at harn

/-- C10 (amended): during teardown, in both cleanup sweeps, a DeletePolicy call
is issued only for a policy whose listed name equals
`getPolicyNameWithUID`'s result — the template's custom-policy name with the
"-uid" suffix appended unless the name already ends in it; every policy with any
other name is only ever detached, never deleted.  `nameOf` names the policies
behind the ARNs; the hypothesis states that every listing page is consistent
with it. -/
theorem cleanFederatedRoles_deletes_only_uid_policy {σ : Type} (fuel : Nat)
    (client : AwsClient σ) (nameOf : String → String)
    (hcons : ListingsConsistent client nameOf) (s : σ)
    (currentFAA : AWSFederatedAccountAccess) (federatedRoleCR : AWSFederatedRole)
    (uidLabel : String) (huid : currentFAA.labels.uid = some uidLabel)
    (res : σ × List AwsCall × Except GoAwsError Unit)
    (hrun : cleanFederatedRoles fuel client s currentFAA federatedRoleCR = some res) :
    DeletesOnlyExpected nameOf
      (getPolicyNameWithUID "" federatedRoleCR.spec.awsCustomPolicy.name uidLabel)
      res.2.1 := by
  unfold cleanFederatedRoles at hrun
  rw [huid] at hrun
  dsimp only at hrun
  rcases hacc : currentFAA.labels.awsAccountID with _ | accountIDLabel
  · rw [hacc] at hrun
    dsimp only at hrun
    split at hrun <;>
      · have hres := (Option.some.inj hrun).symm
        subst hres
        exact deletesOnlyExpected_nil
  · rw [hacc] at hrun
    dsimp only at hrun
    rcases hgc : client.getClient s with ⟨s1, r1⟩
    rw [hgc] at hrun
    cases r1 with
    | error e =>
        dsimp only at hrun
        have hres := (Option.some.inj hrun).symm
        subst hres
        exact deletesOnlyExpected_nil
    | ok _ =>
        dsimp only at hrun
        rcases has1 : client.assumeRole s1
            ("arn:aws:iam::" ++ accountIDLabel ++ ":role/OrganizationAccountAccessRole")
          with ⟨s2, r2⟩
        rw [has1] at hrun
        cases r2 with
        | error e =>
            dsimp only at hrun
            rcases has2 : client.assumeRole s2
                ("arn:aws:iam::" ++ accountIDLabel ++ ":role/BYOCAdminAccess-" ++ uidLabel)
              with ⟨s3, r3⟩
            rw [has2] at hrun
            cases r3 with
            | error e2 =>
                dsimp only at hrun
                have hres := (Option.some.inj hrun).symm
                subst hres
                refine deletesOnlyExpected_cons (fun arn harn => ?_)
                  (deletesOnlyExpected_cons (fun arn harn => ?_) deletesOnlyExpected_nil) <;>
                  simp at harn
            | ok _ =>
                dsimp only at hrun
                rcases hca : cleanFederatedRolesAssumed fuel client s3 currentFAA
                    federatedRoleCR
                    (currentFAA.spec.awsFederatedRole.name ++ "-" ++ uidLabel) uidLabel
                  with _ | res2
                · rw [hca] at hrun
                  simp at hrun
                · rw [hca] at hrun
                  rcases res2 with ⟨s4, calls, r4⟩
                  have h1 := cleanFederatedRolesAssumed_deletes hcons huid fuel s3
                    (s4, calls, r4) hca
                  dsimp only at hrun
                  have hres := (Option.some.inj hrun).symm
                  subst hres
                  refine deletesOnlyExpected_cons (fun arn harn => ?_)
                    (deletesOnlyExpected_cons (fun arn harn => ?_) h1) <;>
                    simp at harn
        | ok _ =>
            dsimp only at hrun
            rcases hca : cleanFederatedRolesAssumed fuel client s2 currentFAA
                federatedRoleCR
                (currentFAA.spec.awsFederatedRole.name ++ "-" ++ uidLabel) uidLabel
              with _ | res2
            · rw [hca] at hrun
              simp at hrun
            · rw [hca] at hrun
              rcases res2 with ⟨s4, calls, r4⟩
              have h1 := cleanFederatedRolesAssumed_deletes hcons huid fuel s2
                (s4, calls, r4) hca
              dsimp only at hrun
              have hres := (Option.some.inj hrun).symm
              subst hres
              refine deletesOnlyExpected_cons (fun arn harn => ?_) h1
              simp at harn

/-- The C10 scenario client: the role has exactly one attached policy, named
"p-u" with ARN "arnX"; every operation succeeds. -/
def c10Client : AwsClient Unit :=
  { okAwsClient with
    listAttachedRolePolicies := fun s _ _ => (s, .ok ⟨[("p-u", "arnX")], false, none⟩) }

/-- The C10 scenario request: both labels assigned, uid "u". -/
def c10FAA : AWSFederatedAccountAccess :=
  { labels := ⟨some "u", some "999999999999"⟩, finalizers := [utilsFinalizer],
    deletionTimestamp := true,
    spec := ⟨⟨"r"⟩, "arn:aws:iam::555555555555:role/customer"⟩,
    status := ⟨"Ready", [], ""⟩ }

/-- The C10 scenario template: its custom-policy name "p-u" already ends in
"-u", the uid suffix. -/
def c10Role : AWSFederatedRole :=
  { name := "r", finalizers := [], deletionTimestamp := false,
    spec := ⟨"R", "d", ⟨"p-u", "d", []⟩, []⟩, status := ⟨"", []⟩ }

/-- The call trace of the C10 scenario teardown. -/
def c10Calls : List AwsCall :=
  [.assumeRole "arn:aws:iam::999999999999:role/OrganizationAccountAccessRole",
   .listAttachedRolePolicies "r-u" none,
   .detachRolePolicy "r-u" "arnX",
   .deletePolicy "arnX",
   .deleteRole "r-u"]

/-- C10 counterexample: with uid "u" and a template custom-policy name "p-u"
that already carries the "-u" suffix, the teardown deletes the attached policy
listed under the name "p-u" — but "p-u" is NOT the template name suffixed with
"-u" (that would be "p-u-u"): getPolicyNameWithUID skips the suffix when it is
already present, so the claim's literal naming condition is violated. -/
theorem deletePolicy_suffix_counterexample :
    (c10Client.listAttachedRolePolicies () "r-u" none).2 =
      .ok ⟨[("p-u", "arnX")], false, none⟩ ∧
    cleanFederatedRoles 5 c10Client () c10FAA c10Role = some ((), c10Calls, .ok ()) ∧
    AwsCall.deletePolicy "arnX" ∈ c10Calls ∧
    "p-u" ≠ c10Role.spec.awsCustomPolicy.name ++ "-" ++ "u" :=
  ⟨rfl, rfl, by decide, by decide⟩

/-- The policy naming of the C10 scenario: ARN "arnX" is the policy "p-u". -/
def c10NameOf : String → String := fun arn => if arn = "arnX" then "p-u" else ""

/-- The C10 scenario client's listings agree with `c10NameOf`. -/
theorem c10Consistent : ListingsConsistent c10Client c10NameOf := by
  constructor
  · intro s roleName marker s' out h p hp
    have hout : out = ⟨[("p-u", "arnX")], false, none⟩ := by
      have h2 := congrArg (fun x => x.2) h
      simpa [c10Client, okAwsClient] using h2.symm
    subst hout
    have hp2 := List.mem_singleton.mp hp
    subst hp2
    rfl
  · intro s marker s' out h p hp
    have hout : out = ⟨[], false, none⟩ := by
      have h2 := congrArg (fun x => x.2) h
      simpa [c10Client, okAwsClient] using h2.symm
    subst hout
    simp at hp

/-- Witness for the amended C10 theorem at the concrete scenario: the one
deleted ARN indeed carries the expected uid-suffixed name. -/
theorem cleanFederatedRoles_deletes_only_uid_policy_witness :
    c10NameOf "arnX" = getPolicyNameWithUID "" c10Role.spec.awsCustomPolicy.name "u" :=
  cleanFederatedRoles_deletes_only_uid_policy 5 c10Client c10NameOf c10Consistent
    () c10FAA c10Role "u" rfl ((), c10Calls, .ok ()) rfl "arnX" (by decide)

/-- Pagination of `getAllPolicies` from the awsfederatedrole controller: collect
every (PolicyName, Arn) pair of every ListPolicies page; `fuel` bounds the pages. -/
def getAllPoliciesLoop {σ : Type} (client : AwsClient σ) :
    Nat → σ → Option String →
    Option (σ × List AwsCall × Except GoAwsError (List (String × String)))
  | 0, _, _ => none
  | fuel + 1, s, marker =>
    match client.listPolicies s marker with
    | (s, .error e) => some (s, [.listPolicies marker], .error e)
    | (s, .ok out) =>
      if out.isTruncated then
        match getAllPoliciesLoop client fuel s out.marker with
        | none => none
        | some (s, calls, .error e) => some (s, .listPolicies marker :: calls, .error e)
        | some (s, calls, .ok rest) =>
            some (s, .listPolicies marker :: calls, .ok (out.policies ++ rest))
      else some (s, [.listPolicies marker], .ok out.policies)

/-- `getAllPolicies` from the awsfederatedrole controller: the first request has
no marker. -/
def getAllPolicies {σ : Type} (fuel : Nat) (client : AwsClient σ) (s : σ) :
    Option (σ × List AwsCall × Except GoAwsError (List (String × String))) :=
  getAllPoliciesLoop client fuel s none

/-- `buildPolicyNameSlice` from the awsfederatedrole controller. -/
def buildPolicyNameSlice (policies : List (String × String)) : List String :=
  policies.map (fun policy => policy.1)

/-- `policyInSlice` from the awsfederatedrole controller. -/
def policyInSlice (policy : String) (policyList : List String) : Bool :=
  policyList.contains policy

/-- The Kubernetes-side operations of the awsfederatedrole controller.
`finalize` is finalizeFederateRole — modelled from the spec: that function is
not under src; per the repository documentation it cleans up the
AWSFederatedAccountAccess resources using the role through the resource store,
issuing no direct cloud-provider call. -/
structure RoleKubeClient (κ : Type) where
  update : κ → AWSFederatedRole → κ × Except GoAwsError Unit
  statusUpdate : κ → AWSFederatedRole → κ × Except GoAwsError Unit
  finalize : κ → AWSFederatedRole → κ × Except GoAwsError Unit

/-- An observable action of an awsfederatedrole reconciliation pass. -/
inductive RoleReconcileEvent where
  | aws (c : AwsCall)
  | kubeUpdate (afr : AWSFederatedRole)
  | kubeStatusUpdate (afr : AWSFederatedRole)
  | kubeFinalize (afr : AWSFederatedRole)
deriving DecidableEq

/-- Modelled from the spec: the awsfederatedrole controller's addFinalizer
(pkg-internal, not under src), mirroring the finalizer manager protocol —
append the marker and update. -/
def addRoleFinalizer {κ : Type} (kube : RoleKubeClient κ) (k : κ)
    (afr : AWSFederatedRole) :
    κ × AWSFederatedRole × List RoleReconcileEvent × Except GoAwsError Unit :=
  let afr2 := { afr with finalizers := afr.finalizers ++ [utilsFinalizer] }
  match kube.update k afr2 with
  | (k, .error e) => (k, afr2, [.kubeUpdate afr2], .error e)
  | (k, .ok _) => (k, afr2, [.kubeUpdate afr2], .ok ())

/-- Modelled from the spec: the awsfederatedrole controller's removeFinalizer
(pkg-internal, not under src) — filter the marker out and update. -/
def removeRoleFinalizer {κ : Type} (kube : RoleKubeClient κ) (k : κ)
    (afr : AWSFederatedRole) (finalizerName : String) :
    κ × AWSFederatedRole × List RoleReconcileEvent × Except GoAwsError Unit :=
  let afr2 := { afr with finalizers := afr.finalizers.filter (fun f => f != finalizerName) }
  match kube.update k afr2 with
  | (k, .error e) => (k, afr2, [.kubeUpdate afr2], .error e)
  | (k, .ok _) => (k, afr2, [.kubeUpdate afr2], .ok ())

/-- The empty-template outcome of the awsfederatedrole validation: the Invalid
condition with reason NoAWSCustomPolicyOrAWSManagedPolicies is recorded; the
state field is NOT touched (unlike the other Invalid outcomes of the source). -/
def markEmptyTemplateCondition (inst : AWSFederatedRole) : AWSFederatedRole :=
  let conds2 := setCrCondition inst.status.conditions "Invalid" "True"
    "NoAWSCustomPolicyOrAWSManagedPolicies"
    "AWSCustomPolicy and/or AWSManagedPolicies do not exist"
  { inst with status := { inst.status with conditions := conds2 } }

/-- The validation tail of the awsfederatedrole Reconcile, from the
terminal-state check onward: client build, the policy document (utils.
MarshalIAMPolicy serialises the custom statements deterministically and cannot
fail on this data, so the trial CreatePolicy input carries the statements),
the emptiness check — which records an Invalid condition but does NOT set the
state field — the trial creation and deletion of the custom policy (with the
MalformedPolicyDocument terminal case), the managed-policy catalog check, and
the final Valid outcome. -/
def reconcileAFRValidate {σ κ : Type} (fuel : Nat) (client : AwsClient σ)
    (kube : RoleKubeClient κ) (s : σ) (k : κ) (inst : AWSFederatedRole) :
    Option (σ × κ × AWSFederatedRole × List RoleReconcileEvent × Except GoAwsError Unit) :=
  if inst.status.state = "Valid" ∨ inst.status.state = "Invalid" then
    some (s, k, inst, [], .ok ())
  else
    match client.getClient s with
    | (s, .error e) => some (s, k, inst, [], .error e)
    | (s, .ok _) =>
      if inst.spec.awsManagedPolicies.length = 0 ∧ inst.spec.awsCustomPolicy.name = "" then
        let inst2 := markEmptyTemplateCondition inst
        match kube.statusUpdate k inst2 with
        | (k, .error e) => some (s, k, inst2, [.kubeStatusUpdate inst2], .error e)
        | (k, .ok _) => some (s, k, inst2, [.kubeStatusUpdate inst2], .ok ())
      else
        let input : CreatePolicyInput := ⟨inst.spec.awsCustomPolicy.name,
          inst.spec.awsCustomPolicy.description, inst.spec.awsCustomPolicy.statements⟩
        match client.createPolicy s input with
        | (s, .error e) =>
          (match e with
          | .aws code msg =>
            if code = "MalformedPolicyDocument" then
              let conds2 := setCrCondition inst.status.conditions "Invalid" "True"
                "InvalidCustomerPolicy" "Custom Policy is malformed"
              let inst2 := { inst with status := { state := "Invalid", conditions := conds2 } }
              match kube.statusUpdate k inst2 with
              | (k, .error e2) =>
                  some (s, k, inst2, [.aws (.createPolicy input), .kubeStatusUpdate inst2],
                    .error e2)
              | (k, .ok _) =>
                  some (s, k, inst2, [.aws (.createPolicy input), .kubeStatusUpdate inst2],
                    .ok ())
            else some (s, k, inst, [.aws (.createPolicy input)], .error (.aws code msg))
          | .plain m => some (s, k, inst, [.aws (.createPolicy input)], .error (.plain m)))
        | (s, .ok arn) =>
          match client.deletePolicy s arn with
          | (s, .error e) =>
              some (s, k, inst, [.aws (.createPolicy input), .aws (.deletePolicy arn)],
                .error e)
          | (s, .ok _) =>
            match getAllPolicies fuel client s with
            | none => none
            | some (s, lcalls, .error e) =>
                some (s, k, inst,
                  .aws (.createPolicy input) :: .aws (.deletePolicy arn) :: lcalls.map .aws,
                  .error e)
            | some (s, lcalls, .ok managedPolicies) =>
              let managedPolicyNameList := buildPolicyNameSlice managedPolicies
              match inst.spec.awsManagedPolicies.find?
                  (fun policy => ! policyInSlice policy managedPolicyNameList) with
              | some _ =>
                let conds2 := setCrCondition inst.status.conditions "Invalid" "True"
                  "InvalidManagedPolicy" "Managed policy does not exist"
                let inst2 := { inst with status := { state := "Invalid", conditions := conds2 } }
                (match kube.statusUpdate k inst2 with
                | (k, .error e2) =>
                    some (s, k, inst2,
                      .aws (.createPolicy input) :: .aws (.deletePolicy arn) ::
                        lcalls.map .aws ++ [.kubeStatusUpdate inst2], .error e2)
                | (k, .ok _) =>
                    some (s, k, inst2,
                      .aws (.createPolicy input) :: .aws (.deletePolicy arn) ::
                        lcalls.map .aws ++ [.kubeStatusUpdate inst2], .ok ()))
              | none =>
                let conds2 := setCrCondition inst.status.conditions "Valid" "True"
                  "AllPoliciesValid" "All managed and custom policies are validated"
                let inst2 := { inst with status := { state := "Valid", conditions := conds2 } }
                match kube.statusUpdate k inst2 with
                | (k, .error e2) =>
                    some (s, k, inst2,
                      .aws (.createPolicy input) :: .aws (.deletePolicy arn) ::
                        lcalls.map .aws ++ [.kubeStatusUpdate inst2], .error e2)
                | (k, .ok _) =>
                    some (s, k, inst2,
                      .aws (.createPolicy input) :: .aws (.deletePolicy arn) ::
                        lcalls.map .aws ++ [.kubeStatusUpdate inst2], .ok ())

/-- The awsfederatedrole Reconcile pass, starting after the successful fetch of
the AWSFederatedRole: skip entirely in fedramp mode; add the finalizer and
return if it is missing; on a deletion marker run finalizeFederateRole and, on
its success, remove the finalizer; then (the Go code falls through) run the
validation tail guarded by the terminal-state check. -/
def ReconcileAFR {σ κ : Type} (fuel : Nat) (isFedramp : Bool) (client : AwsClient σ)
    (kube : RoleKubeClient κ) (s : σ) (k : κ) (inst : AWSFederatedRole) :
    Option (σ × κ × AWSFederatedRole × List RoleReconcileEvent × Except GoAwsError Unit) :=
  if isFedramp then some (s, k, inst, [], .ok ())
  else if ! inst.finalizers.contains utilsFinalizer then
    match addRoleFinalizer kube k inst with
    | (k, afr, evs, r) => some (s, k, afr, evs, r)
  else if inst.deletionTimestamp then
    match kube.finalize k inst with
    | (k, .error e) => some (s, k, inst, [.kubeFinalize inst], .error e)
    | (k, .ok _) =>
      match removeRoleFinalizer kube k inst utilsFinalizer with
      | (k, afr, evs2, .error e) =>
          some (s, k, afr, .kubeFinalize inst :: evs2, .error e)
      | (k, afr, evs2, .ok _) =>
        match reconcileAFRValidate fuel client kube s k afr with
        | none => none
        | some (s, k, afr, evs3, r) =>
            some (s, k, afr, .kubeFinalize inst :: evs2 ++ evs3, r)
  else reconcileAFRValidate fuel client kube s k inst

/-- A trivial role-side Kubernetes client: every operation succeeds. -/
def okRoleKubeClient : RoleKubeClient Unit where
  update := fun k _ => (k, .ok ())
  statusUpdate := fun k _ => (k, .ok ())
  finalize := fun k _ => (k, .ok ())

/-- A federated-role template declaring no managed policies and no custom
policy, with the finalizer present and no deletion marker. -/
def c4Inst : AWSFederatedRole :=
  { name := "t", finalizers := [utilsFinalizer], deletionTimestamp := false,
    spec := ⟨"T", "d", ⟨"", "", []⟩, []⟩, status := ⟨"", []⟩ }

/-- C4 counterexample: reconciling an empty template records an Invalid
condition but leaves the state field empty — not the terminal "Invalid" — so a
second reconciliation of the written resource passes the terminal-state check
again and re-runs the emptiness validation (issuing another status update)
rather than doing nothing. -/
theorem empty_template_state_not_set_counterexample :
    (ReconcileAFR 3 false okAwsClient okRoleKubeClient () () c4Inst).map
      (fun out => (out.2.2.1.status.state, out.2.2.2.2)) = some ("", .ok ()) ∧
    ("" : String) ≠ "Invalid" ∧
    (∃ inst2, (ReconcileAFR 3 false okAwsClient okRoleKubeClient () () c4Inst).map
        (fun out => out.2.2.1) = some inst2 ∧
      (ReconcileAFR 3 false okAwsClient okRoleKubeClient () () inst2).map
        (fun out => out.2.2.2.1.length) = some 1) :=
  ⟨rfl, by decide, ⟨_, rfl, rfl⟩⟩

/-- C4 (amended): for a template declaring no managed policies and no custom
policy (finalizer present, not deletion-marked, state not yet terminal, client
build succeeding), the pass records the explanatory Invalid condition with
reason NoAWSCustomPolicyOrAWSManagedPolicies in a single status update — but
leaves the state field unchanged, so the template does not become terminal. -/
theorem empty_template_records_condition {σ κ : Type} (fuel : Nat)
    (client : AwsClient σ) (kube : RoleKubeClient κ) (s : σ) (k : κ)
    (inst : AWSFederatedRole)
    (hfin : inst.finalizers.contains utilsFinalizer = true)
    (hdel : inst.deletionTimestamp = false)
    (hterm : ¬ (inst.status.state = "Valid" ∨ inst.status.state = "Invalid"))
    (hempty : inst.spec.awsManagedPolicies.length = 0 ∧ inst.spec.awsCustomPolicy.name = "")
    {s1 : σ} (hgc : client.getClient s = (s1, .ok ())) :
    (∃ k2 r, ReconcileAFR fuel false client kube s k inst =
      some (s1, k2, markEmptyTemplateCondition inst,
        [.kubeStatusUpdate (markEmptyTemplateCondition inst)], r)) ∧
    (markEmptyTemplateCondition inst).status.state = inst.status.state := by
  refine ⟨?_, rfl⟩
  unfold ReconcileAFR
  rw [if_neg (by simp), if_neg (by rw [hfin]; simp), if_neg (by rw [hdel]; simp)]
  unfold reconcileAFRValidate
  rw [if_neg hterm, hgc]
  dsimp only
  rw [if_pos hempty]
  rcases hupd : kube.statusUpdate k (markEmptyTemplateCondition inst) with ⟨k2, r⟩
  cases r with
  | error e => exact ⟨k2, .error e, by simp [hupd]⟩
  | ok _ => exact ⟨k2, .ok (), by simp [hupd]⟩

/-- Witness for the amended C4 theorem at the concrete empty template. -/
theorem empty_template_records_condition_witness :
    ∃ k2 r, ReconcileAFR 3 false okAwsClient okRoleKubeClient () () c4Inst =
      some ((), k2, markEmptyTemplateCondition c4Inst,
        [.kubeStatusUpdate (markEmptyTemplateCondition c4Inst)], r) :=
  (empty_template_records_condition 3 okAwsClient okRoleKubeClient () () c4Inst
    rfl rfl (by decide) (by decide) rfl).1

/-- A terminal-state template short-circuits the validation tail entirely. -/
theorem reconcileAFRValidate_terminal {σ κ : Type} {fuel : Nat} {client : AwsClient σ}
    {kube : RoleKubeClient κ} {s : σ} {k : κ} {inst : AWSFederatedRole}
    (hterm : inst.status.state = "Valid" ∨ inst.status.state = "Invalid") :
    reconcileAFRValidate fuel client kube s k inst = some (s, k, inst, [], .ok ()) := by
  unfold reconcileAFRValidate
  rw [if_pos hterm]

/-- `removeRoleFinalizer` always writes the template with the marker filtered
out, in a single update event, leaving the status untouched. -/
theorem removeRoleFinalizer_spec {κ : Type} (kube : RoleKubeClient κ) (k : κ)
    (afr : AWSFederatedRole) (name : String) :
    (removeRoleFinalizer kube k afr name).2.1 =
      { afr with finalizers := afr.finalizers.filter (fun f => f != name) } ∧
    (removeRoleFinalizer kube k afr name).2.2.1 =
      [.kubeUpdate { afr with finalizers := afr.finalizers.filter (fun f => f != name) }] := by
  rcases hupd : kube.update k { afr with
      finalizers := afr.finalizers.filter (fun f => f != name) } with ⟨k2, r⟩
  cases r <;> simp [removeRoleFinalizer, hupd]

/-- C7: once a federated-role template's state is Valid or Invalid, every
reconciliation pass of it issues no cloud-provider call at all and leaves its
status (state and conditions) untouched: the pass ends right after the
finalizer/deletion handling (finalizeFederateRole being resource-store cleanup),
performing no validation work. -/
theorem terminal_role_not_revalidated {σ κ : Type} (fuel : Nat) (isFedramp : Bool)
    (client : AwsClient σ) (kube : RoleKubeClient κ) (s : σ) (k : κ)
    (inst : AWSFederatedRole)
    (hterm : inst.status.state = "Valid" ∨ inst.status.state = "Invalid") :
    ∃ out, ReconcileAFR fuel isFedramp client kube s k inst = some out ∧
      (∀ c, RoleReconcileEvent.aws c ∉ out.2.2.2.1) ∧
      out.2.2.1.status = inst.status := by
  unfold ReconcileAFR
  cases isFedramp with
  | true => exact ⟨(s, k, inst, [], .ok ()), rfl, by simp, rfl⟩
  | false =>
    rw [if_neg (by simp)]
    cases hfin : inst.finalizers.contains utilsFinalizer with
    | false =>
        rw [if_pos (by rfl)]
        unfold addRoleFinalizer
        dsimp only
        rcases hupd : kube.update k { inst with
            finalizers := inst.finalizers ++ [utilsFinalizer] } with ⟨k2, r⟩
        cases r with
        | error e =>
            refine ⟨_, rfl, ?_, rfl⟩
            intro c hc
            simp at hc
        | ok _ =>
            refine ⟨_, rfl, ?_, rfl⟩
            intro c hc
            simp at hc
    | true =>
        rw [if_neg (by simp)]
        cases hdel : inst.deletionTimestamp with
        | false =>
            rw [if_neg (by simp)]
            rw [reconcileAFRValidate_terminal hterm]
            exact ⟨(s, k, inst, [], .ok ()), rfl, by simp, rfl⟩
        | true =>
            rw [if_pos rfl]
            rcases hfz : kube.finalize k inst with ⟨k1, r1⟩
            cases r1 with
            | error e =>
                refine ⟨_, rfl, ?_, rfl⟩
                intro c hc
                simp at hc
            | ok _ =>
                dsimp only
                rcases hrm : removeRoleFinalizer kube k1 inst utilsFinalizer
                  with ⟨k2, afr2, evs2, r2⟩
                have hspec := removeRoleFinalizer_spec kube k1 inst utilsFinalizer
                rw [hrm] at hspec
                simp only at hspec
                obtain ⟨hafr2, hevs2⟩ := hspec
                have hstat : afr2.status = inst.status := by rw [hafr2]
                cases r2 with
                | error e =>
                    refine ⟨_, rfl, ?_, hstat⟩
                    intro c hc
                    rw [hevs2] at hc
                    simp at hc
                | ok _ =>
                    have hterm2 : afr2.status.state = "Valid" ∨ afr2.status.state = "Invalid" := by
                      rw [hstat]
                      exact hterm
                    dsimp only
                    rw [reconcileAFRValidate_terminal hterm2]
                    refine ⟨_, rfl, ?_, hstat⟩
                    intro c hc
                    rw [hevs2] at hc
                    simp at hc

/-- A terminal (Valid) template used by the C7 witness. -/
def c7Inst : AWSFederatedRole :=
  { name := "t", finalizers := [utilsFinalizer], deletionTimestamp := false,
    spec := ⟨"T", "d", ⟨"P", "d", []⟩, ["M"]⟩, status := ⟨"Valid", []⟩ }

/-- Witness for the C7 theorem: the concrete terminal template passes through
untouched with no provider call. -/
theorem terminal_role_not_revalidated_witness :
    ∃ out, ReconcileAFR 3 false okAwsClient okRoleKubeClient () () c7Inst = some out ∧
      (∀ c, RoleReconcileEvent.aws c ∉ out.2.2.2.1) ∧
      out.2.2.1.status = c7Inst.status :=
  terminal_role_not_revalidated 3 false okAwsClient okRoleKubeClient () () c7Inst
    (Or.inl rfl)
